import Mathlib

/-!
# A shallow embedding of the TRNX plugin-graph runtime

This file embeds the core of the TRNX repository in Lean 4 and proves (or
refutes) the specification's claims about it.  The embedded code is:

* `src/trenex/core/memory/shared_memory_port.py` — `SharedMemoryPort`
  (`write`, `read`, creation with zero-initialisation);
* `src/core/plugin/plugin_base.py` — `Plugin` (`set_input_port`,
  `set_output_port`, `verify`); the repository carries a second, behaviourally
  identical draft in `src/trenex/core/base/plugin_base.py` that lacks
  `verify`, the builder imports the `core.plugin` one;
* `src/trenex/trnx.py` — the `TRNX` object (an attribute dictionary holding
  `_name`, `_plugins`, `_is_built`) and its `run` loop;
* `src/trenex/trenex.py` — the `Trenex` builder facade (`start_new_trnx`,
  `load_plugin`, `unload_plugin`, `connect_plugin_output_to_input`,
  `_compute_execution_order`, `build_trnx`);
* `src/core/plugin/plugin_loader.py` — `load_plugin`'s manifest location and
  entry-module resolution over an extracted archive tree.

Modelling conventions.  Python dicts become insertion-ordered association
lists (`setk` reproduces dict assignment: update in place, append when the
key is new).  Python objects that are mutated through aliases (plugin
instances live simultaneously in `_loaded_plugins` and in the TRNX plugin
list) are kept in an explicit heap keyed by numeric ids, and containers hold
ids.  Exceptions become `Except`/`Option String` results; operations that
can mutate state before raising (like `build_trnx`) return the partially
mutated state together with the error.  numpy float64 payloads are opaque to
the control flow, so element values are modelled by `Int`; dtypes are their
string names.  Python `set` iteration order is unspecified; the dependency
sets of `_compute_execution_order` are modelled as insertion-ordered
deduplicated lists, and every theorem proved below is insensitive to that
order.
-/

set_option maxHeartbeats 1000000

namespace TRNX

variable {κ : Type} [DecidableEq κ]

/-- Dict assignment `d[k] = v`: replace the value at the first occurrence of
`k` keeping its position, or append `(k, v)` when `k` is absent.  This is
Python dict semantics (insertion order preserved, updates in place). -/
def setk {β : Type} : List (κ × β) → κ → β → List (κ × β)
  | [], k, v => [(k, v)]
  | (k', v') :: rest, k, v =>
      if k' = k then (k, v) :: rest else (k', v') :: setk rest k v

/-- Dict lookup with a default (used where the Python code is only ever run
with the key present). -/
def lookupD {β : Type} (l : List (κ × β)) (k : κ) (dflt : β) : β :=
  match l.lookup k with
  | some v => v
  | none => dflt

/-- `list.remove(x)`: drop the first occurrence. -/
def removeFirst {β : Type} [DecidableEq β] : List β → β → List β
  | [], _ => []
  | x :: rest, y => if x = y then rest else x :: removeFirst rest y

/-- `dict.pop(k)`: drop the first occurrence of the key. -/
def delk {β : Type} : List (κ × β) → κ → List (κ × β)
  | [], _ => []
  | (k', v') :: rest, k => if k' = k then rest else (k', v') :: delk rest k

/-! ## Tensors and shared memory regions

From `src/trenex/core/memory/shared_memory_port.py`.  A tensor is a numpy
array abstracted to its shape, dtype name and flat element list.  A
`SharedMemoryPort` is the in-process view of one named region: its logical
shape/dtype plus the current contents of the backing buffer.  Region
identity (the Python object identity that the build binds into producers and
consumers) is an explicit numeric `id`. -/

/-- Element values; numpy float64 payloads are opaque to all control flow in
the embedded code, so they are modelled by integers. -/
abbrev Val := Int

structure Tensor where
  shape : List Nat
  dtype : String
  data : List Val
deriving DecidableEq, Repr

structure SharedMemoryPort where
  id : Nat
  name : String
  shape : List Nat
  dtype : String
  contents : List Val
deriving DecidableEq, Repr

namespace SharedMemoryPort

/-- `SharedMemoryPort.__init__` in the create branch: a fresh region is
zero-initialised (`_initialize_memory`).  The attach branch (an OS region of
the same name already existing) does not arise in the embedded scenarios:
within one build the region names `<producer>_<port>` are pairwise distinct
because dict keys are. -/
def create (id : Nat) (name : String) (shape : List Nat) (dtype : String) :
    SharedMemoryPort :=
  { id := id, name := name, shape := shape, dtype := dtype,
    contents := List.replicate shape.prod 0 }

/-- `SharedMemoryPort.write`: reject a shape or dtype mismatch with
`ValueError` (the region is untouched — the Python code raises before any
mutation); otherwise copy the data into the region under the lock. -/
def write (p : SharedMemoryPort) (data : Tensor) : Except String SharedMemoryPort :=
  if data.shape ≠ p.shape ∨ data.dtype ≠ p.dtype then
    .error ("Incompatible data shape " ++ toString data.shape ++
      " or dtype " ++ data.dtype)
  else
    .ok { p with contents := data.data }

/-- `SharedMemoryPort.read`: return a newly allocated copy of the current
contents under the lock. -/
def read (p : SharedMemoryPort) : Tensor :=
  { shape := p.shape, dtype := p.dtype, data := p.contents }

end SharedMemoryPort

/-! ## The plugin contract

From `src/core/plugin/plugin_base.py` (the draft imported by the builder;
`src/trenex/core/base/plugin_base.py` is behaviourally identical on the
operations below except that it lacks `verify`).  A plugin instance owns two
name→descriptor maps (`_required_inputs`, `_provided_outputs`, populated by
the plugin's `_define_inputs` / `_define_outputs`) and two name→region
binding maps (`_inputs`, `_outputs`) holding the bound `SharedMemoryPort`
objects, modelled as region ids.  `process` bodies are plugin-defined code
outside the core; their observable effect on the run loop is abstracted as
an `Except` result. -/

structure PortDesc where
  shape : List Nat
  dtype : String
deriving DecidableEq, Repr

instance {α β : Type} [DecidableEq α] [DecidableEq β] : DecidableEq (Except α β) :=
  fun a b =>
    match a, b with
    | .ok x, .ok y =>
        if h : x = y then isTrue (by rw [h])
        else isFalse (by intro hh; cases hh; exact h rfl)
    | .error x, .error y =>
        if h : x = y then isTrue (by rw [h])
        else isFalse (by intro hh; cases hh; exact h rfl)
    | .ok _, .error _ => isFalse (fun hh => Except.noConfusion hh)
    | .error _, .ok _ => isFalse (fun hh => Except.noConfusion hh)

/-- What a concrete plugin class contributes: its class name, the descriptor
maps its `_define_inputs` / `_define_outputs` populate, and the abstract
behaviour of its `process` method. -/
structure PluginDecl where
  className : String
  required_inputs : List (String × PortDesc)
  provided_outputs : List (String × PortDesc)
  processResult : Except String Unit
deriving DecidableEq, Repr

/-- A live plugin instance (one Python object, held in the heap). -/
structure PluginInst where
  className : String
  required_inputs : List (String × PortDesc)
  provided_outputs : List (String × PortDesc)
  /-- `_inputs`: input port name → bound region id. -/
  inputs : List (String × Nat)
  /-- `_outputs`: output port name → bound region id. -/
  outputs : List (String × Nat)
  processResult : Except String Unit
deriving DecidableEq, Repr

namespace PluginInst

/-- A freshly instantiated plugin after `_define_outputs`/`_define_inputs`:
declared maps populated, no bindings yet. -/
def ofDecl (d : PluginDecl) : PluginInst :=
  { className := d.className, required_inputs := d.required_inputs,
    provided_outputs := d.provided_outputs, inputs := [], outputs := [],
    processResult := d.processResult }

/-- `Plugin.set_input_port`: record the binding, `ValueError` when the name
is not a declared required input. -/
def set_input_port (p : PluginInst) (input_name : String) (rid : Nat) :
    Except String PluginInst :=
  if (p.required_inputs.lookup input_name).isSome then
    .ok { p with inputs := setk p.inputs input_name rid }
  else
    .error ("Input " ++ input_name ++ " not defined.")

/-- `Plugin.set_output_port`: record the binding, `ValueError` when the name
is not a declared provided output. -/
def set_output_port (p : PluginInst) (output_name : String) (rid : Nat) :
    Except String PluginInst :=
  if (p.provided_outputs.lookup output_name).isSome then
    .ok { p with outputs := setk p.outputs output_name rid }
  else
    .error ("Output " ++ output_name ++ " not defined.")

/-- `Plugin.verify`: every declared required input must have a binding. -/
def verify (p : PluginInst) : Except String Unit :=
  if p.required_inputs.all (fun kv => (p.inputs.lookup kv.1).isSome) then
    .ok ()
  else
    .error "Not all required inputs set."

end PluginInst

/-! ## The TRNX object

From `src/trenex/trnx.py`.  A `TRNX` is a plain Python object whose
`__init__` sets exactly the attributes `_name`, `_plugins`, `_is_built`.
Because `Trenex.build_trnx` later does `self._active_trnx.plugins = ...`
(note: `plugins`, a *new* attribute, not `_plugins`) and
`Trenex.unload_plugin` reads `self._active_trnx.name` (not `_name`), the
object is modelled the Python way, as its attribute dictionary, so that
attribute errors and dynamically added attributes are captured exactly. -/

inductive Attr where
  | str (s : String)
  | ids (l : List Nat)
  | bool (b : Bool)
deriving DecidableEq, Repr

/-- The `__dict__` of a `TRNX` object; plugin lists are lists of heap ids. -/
abbrev TrnxObj := List (String × Attr)

/-- `TRNX.__init__(name)`. -/
def TRNXinit (name : String) : TrnxObj :=
  [("_name", Attr.str name), ("_plugins", Attr.ids []), ("_is_built", Attr.bool false)]

/-- Python attribute read: `AttributeError` when the attribute was never
set. -/
def getattr (obj : TrnxObj) (a : String) : Except String Attr :=
  match obj.lookup a with
  | some v => .ok v
  | none => .error ("AttributeError: 'TRNX' object has no attribute " ++ a)

/-! ## The builder facade

From `src/trenex/trenex.py`.  The facade keeps a name→TRNX map with an
active pointer plus, per TRNX, the loaded-plugin dict
`{class_name: (instance, filepath)}` and the connection dict
`{producer: {out_port: [(consumer, in_port), ...]}}`.  The claims under
verification all concern the active graph, so the model keeps the list of
existing TRNX names (for the `start_new_trnx` collision check) and the full
state of the active graph; plugin instances live in `heap` and regions in
`regions`, with containers holding ids so that the aliasing of instances
between `_loaded_plugins` and the TRNX plugin lists is exact. -/

/-- `{producer: {out_port: [(consumer, in_port), ...]}}`. -/
abbrev Conns := List (String × List (String × List (String × String)))

structure GraphState where
  /-- The active `TRNX` object's attribute dict. -/
  trnx : TrnxObj
  /-- `_loaded_plugins[trnx_name]`: class name → (instance id, filepath). -/
  loaded_plugins : List (String × Nat × String)
  /-- `_plugin_connections[trnx_name]`. -/
  plugin_connections : Conns
deriving DecidableEq, Repr

structure TrenexState where
  /-- The keys of `_trnxs` (graph names in creation order). -/
  trnx_names : List String
  /-- `_active_trnx` together with its per-graph dicts. -/
  active : Option GraphState
  /-- All live plugin instances, keyed by id. -/
  heap : List (Nat × PluginInst)
  /-- All live shared-memory regions, keyed by id. -/
  regions : List (Nat × SharedMemoryPort)
  /-- Fresh-id counter (models Python object identity / `IDGenerator`). -/
  nextId : Nat
  /-- `Trenex.execution_order`. -/
  execution_order : List String
deriving DecidableEq, Repr

/-- Each facade operation returns the (possibly partially) mutated state and
the raised exception's message, if any. -/
abbrev OpResult := TrenexState × Option String

namespace Trenex

def initState : TrenexState :=
  { trnx_names := [], active := none, heap := [], regions := [],
    nextId := 0, execution_order := [] }

/-- `Trenex.start_new_trnx`. -/
def start_new_trnx (st : TrenexState) (name : String) : OpResult :=
  if name ∈ st.trnx_names then
    (st, some ("TRNX with name " ++ name ++ " already exists."))
  else
    ({ st with trnx_names := st.trnx_names ++ [name],
               active := some { trnx := TRNXinit name, loaded_plugins := [],
                                plugin_connections := [] } }, none)

/-- `Trenex.load_plugin`: the loader's result (a freshly instantiated plugin
of class `decl`) is a parameter; the facade calls `_define_outputs` and
`_define_inputs`, assigns into the loaded-plugin dict (overwriting any
existing entry for the same class name, keeping its position) and appends
the instance to the TRNX's `_plugins` list. -/
def load_plugin (st : TrenexState) (decl : PluginDecl) (filepath : String) :
    OpResult :=
  match st.active with
  | none => (st, some "No active TRNX. Please start or set an active TRNX first.")
  | some g =>
      match g.trnx.lookup "_plugins" with
      | some (Attr.ids l) =>
          let pid := st.nextId
          ({ st with
              heap := setk st.heap pid (PluginInst.ofDecl decl),
              nextId := pid + 1,
              active := some { g with
                loaded_plugins := setk g.loaded_plugins decl.className (pid, filepath),
                trnx := setk g.trnx "_plugins" (Attr.ids (l ++ [pid])) } }, none)
      | _ => (st, some "AttributeError: 'TRNX' object has no attribute _plugins")

/-- `Trenex.unload_plugin`: reads `self._active_trnx.name` first — an
attribute no code path ever sets (`__init__` sets `_name`), so on any state
the runtime actually reaches, this raises `AttributeError` before touching
anything.  The remaining lines (membership check, dict pop, removal from the
also-nonexistent `plugins` list read via `self._active_trnx.plugins`) are
embedded for completeness. -/
def unload_plugin (st : TrenexState) (plugin_name : String) : OpResult :=
  match st.active with
  | none => (st, some "No active TRNX.")
  | some g =>
      match g.trnx.lookup "name" with
      | none => (st, some "AttributeError: 'TRNX' object has no attribute name")
      | some _ =>
          if (g.loaded_plugins.lookup plugin_name).isNone then
            (st, some ("Plugin " ++ plugin_name ++ " not found in active TRNX."))
          else
            match g.loaded_plugins.lookup plugin_name, g.trnx.lookup "plugins" with
            | some (pid, _), some (Attr.ids l) =>
                ({ st with active := some { g with
                    loaded_plugins := delk g.loaded_plugins plugin_name,
                    trnx := setk g.trnx "plugins" (Attr.ids (removeFirst l pid)) } },
                  none)
            | _, _ =>
                (st, some "AttributeError: 'TRNX' object has no attribute plugins")

/-- The connection-dict update `connect` performs (the setdefault pattern
`self._plugin_connections[t].setdefault-like nesting` followed by the
`append`). -/
def addConn (conns : Conns) (a o b i : String) : Conns :=
  setk conns a
    (setk (lookupD conns a []) o (lookupD (lookupD conns a []) o [] ++ [(b, i)]))

/-- `Trenex.connect_plugin_output_to_input`: both plugins must be loaded;
then the `(consumer, in_port)` pair is appended to the connection dict via
the setdefault pattern.  The code performs no other check: no port
existence, no descriptor compatibility, no fan-in rejection. -/
def connect_plugin_output_to_input (st : TrenexState)
    (output_plugin output_port input_plugin input_port : String) : OpResult :=
  match st.active with
  | none => (st, some "No active TRNX.")
  | some g =>
      if (g.loaded_plugins.lookup output_plugin).isNone then
        (st, some ("Output plugin " ++ output_plugin ++ " not loaded."))
      else if (g.loaded_plugins.lookup input_plugin).isNone then
        (st, some ("Input plugin " ++ input_plugin ++ " not loaded."))
      else
        let conns' := addConn g.plugin_connections output_plugin output_port
          input_plugin input_port
        ({ st with active := some { g with plugin_connections := conns' } }, none)

end Trenex

/-! ## Execution-order computation

From `Trenex._compute_execution_order`.  The dependency graph maps each
plugin name to the set of its direct consumers; in-degrees are kept in a
second dict.  Python's `set` iterates in an unspecified order; the successor
sets are modelled as insertion-ordered deduplicated lists (the `if in_plugin
not in dependency_graph[out_plugin]` guard is the dedup), and every theorem
below is insensitive to the successor order.  The two subscript reads
`dependency_graph[out_plugin]` and `in_degree[in_plugin]` are modelled with
a default (they can only miss when a connection names a plugin that is not
loaded, which `connect_plugin_output_to_input` prevents). -/

abbrev DepGraph := List (String × List String)
abbrev InDeg := List (String × Int)

/-- One iteration of the innermost loop body of the graph-building phase. -/
def addEdge (s : DepGraph × InDeg) (a b : String) : DepGraph × InDeg :=
  if b ∈ lookupD s.1 a [] then s
  else (setk s.1 a (lookupD s.1 a [] ++ [b]),
        setk s.2 b (lookupD s.2 b 0 + 1))

def addPairs (a : String) : List (String × String) → DepGraph × InDeg → DepGraph × InDeg
  | [], s => s
  | (b, _) :: rest, s => addPairs a rest (addEdge s a b)

def addPorts (a : String) : List (String × List (String × String)) → DepGraph × InDeg → DepGraph × InDeg
  | [], s => s
  | (_, pairs) :: rest, s => addPorts a rest (addPairs a pairs s)

def addConns : Conns → DepGraph × InDeg → DepGraph × InDeg
  | [], s => s
  | (a, ports) :: rest, s => addConns rest (addPorts a ports s)

/-- `dependency_graph = {p: set() for p in plugins}`,
`in_degree = {p: 0 for p in plugins}`, then the triple loop over the
connection dict. -/
def buildDepGraph (names : List String) (conns : Conns) : DepGraph × InDeg :=
  addConns conns (names.map (fun n => (n, [])), names.map (fun n => (n, 0)))

/-- Total positive in-degree; the termination measure of Kahn's loop. -/
def sumPos (deg : InDeg) : Nat := (deg.map (fun kv => kv.2.toNat)).sum

/-- The inner loop of Kahn's algorithm over the successors of the popped
node: decrement each successor's in-degree and enqueue it when it reaches
zero. -/
def processDeps : List String → InDeg → List String → InDeg × List String
  | [], deg, queue => (deg, queue)
  | d :: rest, deg, queue =>
      processDeps rest (setk deg d (lookupD deg d 0 - 1))
        (if lookupD deg d 0 - 1 = 0 then queue ++ [d] else queue)

/-- The main loop of Kahn's algorithm (pop the queue front, emit it,
decrement its successors' in-degrees, enqueue the newly-zero ones at the
back), structurally recursive on an explicit bound so that it computes by
kernel reduction.  The Python loop is unbounded (`while queue:`);
`processDeps_measure` shows `queue.length + sumPos deg` strictly decreases
each iteration, so running with that bound as fuel (`kahnRun`) *is* the
unbounded loop: `kahnRun_nil` / `kahnRun_cons` below are exactly the loop's
defining equations. -/
def kahnLoopF (dg : DepGraph) : Nat → InDeg → List String → List String → List String
  | 0, _, _, sorted => sorted
  | _ + 1, _, [], sorted => sorted
  | fuel + 1, deg, current :: rest, sorted =>
      kahnLoopF dg fuel (processDeps (lookupD dg current []) deg rest).1
        (processDeps (lookupD dg current []) deg rest).2 (sorted ++ [current])

def kahnRun (dg : DepGraph) (deg : InDeg) (queue sorted : List String) :
    List String :=
  kahnLoopF dg (queue.length + sumPos deg) deg queue sorted

/-- `Trenex._compute_execution_order` as a pure function of the loaded
plugin names (dict key order) and the connection dict: build the dependency
graph, seed the FIFO queue with all zero-in-degree plugins in key order, run
Kahn's loop, and fail when the emitted sequence is shorter than the plugin
count. -/
def compute_execution_order (names : List String) (conns : Conns) :
    Except String (List String) :=
  let s := buildDepGraph names conns
  let sorted := kahnRun s.1 s.2 (names.filter (fun p => lookupD s.2 p 0 = 0)) []
  if sorted.length ≠ names.length then
    .error "Cycle detected in plugin dependencies."
  else
    .ok sorted

/-! ### Specification vocabulary for the execution order

`hasEdge` reads the declared edges straight off the connection dict;
`predCnt` counts a consumer's producers within a plugin set, per the built
dependency graph; `TP` is the topological-order property ("every producer
of `x` appears strictly before `x`"); `GraphOk` and `LoopOk` are the
invariants of graph construction and of Kahn's loop. -/

/-- Does the connection dict record an edge from producer `a` to consumer
`b` (on any port pair, in any entry)? -/
def hasEdge (conns : Conns) (a b : String) : Bool :=
  conns.any (fun pc =>
    pc.1 = a && pc.2.any (fun port => port.2.any (fun pr => pr.1 = b)))

/-- Every plugin named by a connection entry is a loaded plugin name (which
`connect_plugin_output_to_input` guarantees for reachable states). -/
abbrev ConnsWF (names : List String) (conns : Conns) : Prop :=
  ∀ pc ∈ conns, pc.1 ∈ names ∧ ∀ port ∈ pc.2, ∀ pr ∈ port.2, pr.1 ∈ names

/-- The number of producers of `x` within `S`, per dependency graph `dg`. -/
def predCnt (dg : DepGraph) (S : List String) (x : String) : Nat :=
  S.countP (fun a => decide (x ∈ lookupD dg a []))

/-- `x` has no producer among the loaded plugins. -/
def noProducer (names : List String) (conns : Conns) (x : String) : Bool :=
  names.all (fun a => !(hasEdge conns a x))

/-- Topological-order property of an emitted sequence: wherever `x` sits,
all its producers sit strictly before it. -/
def TP (dg : DepGraph) (order : List String) : Prop :=
  ∀ l₁ x l₂, order = l₁ ++ x :: l₂ → ∀ a, x ∈ lookupD dg a [] → a ∈ l₁

/-- Invariant of the graph-construction loops of
`_compute_execution_order`: keys stay exactly the plugin names, successor
lists stay deduplicated lists of plugin names, and each recorded in-degree
equals the number of distinct producers. -/
structure GraphOk (names : List String) (s : DepGraph × InDeg) : Prop where
  keys_none : ∀ a, a ∉ names → s.1.lookup a = none
  succ_nodup : ∀ a, (lookupD s.1 a []).Nodup
  succ_mem : ∀ a b, b ∈ lookupD s.1 a [] → b ∈ names
  deg_eq : ∀ x ∈ names, s.2.lookup x = some ((predCnt s.1 names x : Int))

/-- Invariant of Kahn's loop: emitted ++ queued plugins are distinct plugin
names; each tracked in-degree is the total producer count minus the
producers already emitted; a plugin is emitted-or-queued exactly when all
its producers are emitted; and the emitted prefix is topologically
ordered. -/
structure LoopOk (dg : DepGraph) (names : List String) (deg : InDeg)
    (queue sorted : List String) : Prop where
  nd : (sorted ++ queue).Nodup
  mem : ∀ x ∈ sorted ++ queue, x ∈ names
  deg_eq : ∀ x ∈ names, deg.lookup x =
    some ((predCnt dg names x : Int) - (predCnt dg sorted x : Int))
  count_iff : ∀ x ∈ names,
    (x ∈ sorted ++ queue ↔ predCnt dg sorted x = predCnt dg names x)
  topo : TP dg sorted

/-! ## Build

From `Trenex.build_trnx`.  Region materialisation walks the connection dict:
for each producer and each of its connected output ports, read the
descriptor from `_provided_outputs`, create the shared-memory port named
`<producer>_<out_port>`, bind it to the producer with `set_output_port` and
to every recorded consumer with `set_input_port`.  Each step mutates the
plugin heap and the region table in place; an exception leaves all
mutations made so far in place (the caller sees the partially materialised
state).  Then the execution order is computed, the ordered instance list is
assigned to the (new) attribute `plugins` of the TRNX object, `verify()` is
called on every plugin in order, and only then is `_is_built` set. -/

/-- The mutable state of the materialisation loop. -/
structure Mat where
  heap : List (Nat × PluginInst)
  regions : List (Nat × SharedMemoryPort)
  nextId : Nat
deriving DecidableEq, Repr

/-- Bind the region `rid` into each recorded `(consumer, in_port)` pair. -/
def bindConsumers (lp : List (String × Nat × String)) (rid : Nat) :
    List (String × String) → Mat → Mat × Option String
  | [], m => (m, none)
  | (ip, iport) :: rest, m =>
      match lp.lookup ip with
      | none => (m, some ("KeyError: " ++ ip))
      | some (ipid, _) =>
          match m.heap.lookup ipid with
          | none => (m, some ("KeyError: " ++ ip))
          | some inst =>
              match inst.set_input_port iport rid with
              | .error e => (m, some e)
              | .ok inst' =>
                  bindConsumers lp rid rest { m with heap := setk m.heap ipid inst' }

/-- Materialise one `(producer, out_port)` group: create the region and bind
both endpoints. -/
def matPort (lp : List (String × Nat × String)) (out_plugin : String)
    (opid : Nat) (out_port : String) (pairs : List (String × String))
    (m : Mat) : Mat × Option String :=
  match m.heap.lookup opid with
  | none => (m, some ("KeyError: " ++ out_plugin))
  | some oinst =>
      match oinst.provided_outputs.lookup out_port with
      | none => (m, some ("KeyError: " ++ out_port))
      | some desc =>
          let rid := m.nextId
          let port := SharedMemoryPort.create rid (out_plugin ++ "_" ++ out_port)
            desc.shape desc.dtype
          match oinst.set_output_port out_port rid with
          | .error e => (m, some e)
          | .ok oinst' =>
              bindConsumers lp rid pairs
                { heap := setk m.heap opid oinst',
                  regions := m.regions ++ [(rid, port)],
                  nextId := rid + 1 }

def matPorts (lp : List (String × Nat × String)) (out_plugin : String)
    (opid : Nat) : List (String × List (String × String)) → Mat → Mat × Option String
  | [], m => (m, none)
  | (oport, pairs) :: rest, m =>
      match matPort lp out_plugin opid oport pairs m with
      | (m', some e) => (m', some e)
      | (m', none) => matPorts lp out_plugin opid rest m'

def matConns (lp : List (String × Nat × String)) :
    Conns → Mat → Mat × Option String
  | [], m => (m, none)
  | (op, ports) :: rest, m =>
      match lp.lookup op with
      | none => (m, some ("KeyError: " ++ op))
      | some (opid, _) =>
          match matPorts lp op opid ports m with
          | (m', some e) => (m', some e)
          | (m', none) => matConns lp rest m'

/-! ### Vocabulary for the materialisation proofs

`outSlot`/`inSlot` project one port binding of one plugin instance out of
the heap; the `…BindIn` functions say whether a fragment of the connection
dict writes a given input slot during materialisation; `destCount` counts
the declared edges into one `(consumer, in_port)` destination; `RegFresh` /
`Grows` track that region ids are allocated fresh and observable state only
grows. -/

def outSlot (h : List (Nat × PluginInst)) (pid : Nat) (o : String) :
    Option (Option Nat) :=
  (h.lookup pid).map (fun inst => inst.outputs.lookup o)

def inSlot (h : List (Nat × PluginInst)) (pid : Nat) (i : String) :
    Option (Option Nat) :=
  (h.lookup pid).map (fun inst => inst.inputs.lookup i)

/-- Does this consumer list bind the input slot `(pid, i)`? -/
def bindsIn (lp : List (String × Nat × String))
    (pairs : List (String × String)) (pid : Nat) (i : String) : Bool :=
  pairs.any (fun pr => pr.2 = i &&
    (match lp.lookup pr.1 with
     | some pa => pa.1 = pid
     | none => false))

def portsBindIn (lp : List (String × Nat × String))
    (ports : List (String × List (String × String))) (pid : Nat)
    (i : String) : Bool :=
  ports.any (fun port => bindsIn lp port.2 pid i)

def connsBindIn (lp : List (String × Nat × String)) (conns : Conns)
    (pid : Nat) (i : String) : Bool :=
  conns.any (fun pc => portsBindIn lp pc.2 pid i)

/-- Does materialising this group of the connection dict call
`set_output_port` with port name `o`? -/
def portsSetsOut (ports : List (String × List (String × String)))
    (o : String) : Bool :=
  ports.any (fun port => port.1 = o)

def connsSetsOut (lp : List (String × Nat × String)) (conns : Conns)
    (pid : Nat) (o : String) : Bool :=
  conns.any (fun pc =>
    (match lp.lookup pc.1 with
     | some pa => decide (pa.1 = pid)
     | none => false) && portsSetsOut pc.2 o)

/-- The number of declared edges in one producer's port dict whose
destination is `(b, i)`. -/
def portsDest (ports : List (String × List (String × String)))
    (b i : String) : Nat :=
  (ports.map (fun port => port.2.countP (fun pr => decide (pr = (b, i))))).sum

/-- The number of declared edges whose destination is `(b, i)`. -/
def destCount (conns : Conns) (b i : String) : Nat :=
  (conns.map (fun pc => portsDest pc.2 b i)).sum

/-- All allocated region ids are below the fresh-id counter. -/
def RegFresh (m : Mat) : Prop := ∀ kv ∈ m.regions, kv.1 < m.nextId

/-- The materialisation steps only append fresh regions and advance the
counter. -/
structure Grows (m m' : Mat) : Prop where
  regions_pre : ∃ suffix, m'.regions = m.regions ++ suffix ∧
    ∀ kv ∈ suffix, m.nextId ≤ kv.1
  nextId_le : m.nextId ≤ m'.nextId
  fresh_pres : RegFresh m → RegFresh m'

/-- `[self._loaded_plugins[trnx_name][p][0] for p in sorted_plugin_names]`. -/
def collectIds (lp : List (String × Nat × String)) :
    List String → Except String (List Nat)
  | [] => .ok []
  | n :: rest =>
      match lp.lookup n with
      | none => .error ("KeyError: " ++ n)
      | some (pid, _) =>
          match collectIds lp rest with
          | .error e => .error e
          | .ok ids => .ok (pid :: ids)

/-- `for plugin in self._active_trnx.plugins: plugin.verify()`. -/
def verifyAll (heap : List (Nat × PluginInst)) : List Nat → Option String
  | [] => none
  | pid :: rest =>
      match heap.lookup pid with
      | none => some "KeyError: plugin instance"
      | some inst =>
          match inst.verify with
          | .error e => some e
          | .ok _ => verifyAll heap rest

namespace Trenex

/-- `Trenex.build_trnx`.  Note what the code does *not* do: a failure at any
stage (materialisation, cycle check, verification) propagates the raw
exception and leaves every mutation already made — created regions, port
bindings, the reordered `plugins` attribute — in place; nothing is destroyed
or reverted, no error is wrapped, and only `_is_built` (set last) stays
`false`. -/
def build_trnx (st : TrenexState) : OpResult :=
  match st.active with
  | none => (st, some "No active TRNX.")
  | some g =>
      match matConns g.loaded_plugins g.plugin_connections
        { heap := st.heap, regions := st.regions, nextId := st.nextId } with
      | (m, some e) =>
          ({ st with heap := m.heap, regions := m.regions, nextId := m.nextId },
            some e)
      | (m, none) =>
          let st1 := { st with heap := m.heap, regions := m.regions,
                               nextId := m.nextId }
          match compute_execution_order (g.loaded_plugins.map (·.1))
              g.plugin_connections with
          | .error e => (st1, some e)
          | .ok order =>
              let st2 := { st1 with execution_order := order }
              match collectIds g.loaded_plugins order with
              | .error e => (st2, some e)
              | .ok pids =>
                  let g2 := { g with trnx := setk g.trnx "plugins" (Attr.ids pids) }
                  let st3 := { st2 with active := some g2 }
                  match verifyAll st3.heap pids with
                  | some e => (st3, some e)
                  | none =>
                      let g3 := { g2 with
                        trnx := setk g2.trnx "_is_built" (Attr.bool true) }
                      ({ st3 with active := some g3 }, none)

end Trenex

/-! ## The run loop

From `TRNX.run` in `src/trenex/trnx.py`: after the built check, `while
True:` sweeps `self._plugins` invoking each plugin's `process()` — with no
`try`/`except` around the call, so a plugin exception propagates out of
`run()` and aborts the sweep.  One full sweep (one tick) is modelled; it
returns the class names of the plugins that executed, or the first
exception.  (Note the loop iterates `_plugins`, the load-order list from
`__init__`, not the `plugins` attribute that `build_trnx` assigns the
topological order to.) -/

def runTick (heap : List (Nat × PluginInst)) : List Nat → Except String (List String)
  | [] => .ok []
  | pid :: rest =>
      match heap.lookup pid with
      | none => .error "KeyError: plugin instance"
      | some p =>
          match p.processResult with
          | .error e => .error e
          | .ok _ =>
              match runTick heap rest with
              | .error e => .error e
              | .ok executed => .ok (p.className :: executed)

/-- One tick of `TRNX.run` on the facade state: check `_is_built`, then
sweep `_plugins`. -/
def TRNXrunTick (st : TrenexState) : Except String (List String) :=
  match st.active with
  | none => .error "No active TRNX."
  | some g =>
      match g.trnx.lookup "_is_built" with
      | some (Attr.bool true) =>
          match g.trnx.lookup "_plugins" with
          | some (Attr.ids l) => runTick st.heap l
          | _ => .error "AttributeError: 'TRNX' object has no attribute _plugins"
      | some (Attr.bool false) =>
          .error "TRNX is not built. Please build the TRNX first."
      | _ => .error "AttributeError: 'TRNX' object has no attribute _is_built"

/-! ## The plugin loader

From `load_plugin` in `src/core/plugin/plugin_loader.py`, up to and
including entry-module resolution (class fetch and instantiation happen in
the plugin's own code, outside the core).  The extracted archive is a tree
of named entries; a file carries `some kv` when it parses as a JSON object
of string values and `none` otherwise.  The embedded function returns the
extraction-root-relative path of the module file it executes. -/

inductive Entry where
  | file (json : Option (List (String × String)))
  | dir (entries : List (String × Entry))

/-- Path lookup in an extracted tree. -/
def lookupEntry : List (String × Entry) → List String → Option Entry
  | _, [] => none
  | es, [n] => es.lookup n
  | es, n :: rest =>
      match es.lookup n with
      | some (Entry.dir sub) => lookupEntry sub rest
      | _ => none

/-- `open(path); json.load(f)`. -/
def openJson (root : List (String × Entry)) (path : List String) :
    Except String (List (String × String)) :=
  match lookupEntry root path with
  | some (Entry.file (some kv)) => .ok kv
  | some (Entry.file none) => .error "JSONDecodeError"
  | _ => .error "FileNotFoundError: plugin_manifest.json"

/-- Python `str.split(sep)` for a one-character separator (Lean's
`String.splitOn` is equivalent here but does not reduce in the kernel). -/
def splitOnCharAux (c : Char) : List Char → List Char → List (List Char)
  | [], acc => [acc.reverse]
  | x :: rest, acc =>
      if x = c then acc.reverse :: splitOnCharAux c rest []
      else splitOnCharAux c rest (x :: acc)

def splitOnChar (s : String) (c : Char) : List String :=
  (splitOnCharAux c s.data []).map List.asString

/-- `os.path.join(temp_dir, *module_name.split(".")) + ".py"`, as a
root-relative path: the dot-separated components, with `.py` appended to
the last one. -/
def modulePathOf (module_name : String) : List String :=
  match (splitOnChar module_name '.').reverse with
  | [] => []
  | last :: revInit => revInit.reverse ++ [last ++ ".py"]

/-- `load_plugin` through entry-module execution.  Note: the manifest may be
located one directory down (single-subdirectory case), but the module path
is built with `os.path.join(temp_dir, ...)` — relative to the extraction
root, not to the directory that contained the manifest. -/
def load_plugin_module (temp_dir : List (String × Entry)) :
    Except String (List String) :=
  let manifestPath : Except String (List String) :=
    if (lookupEntry temp_dir ["plugin_manifest.json"]).isSome then
      .ok ["plugin_manifest.json"]
    else
      match temp_dir with
      | [(name, Entry.dir _)] => .ok [name, "plugin_manifest.json"]
      | _ => .error "plugin_manifest.json not found in archive."
  match manifestPath with
  | .error e => .error e
  | .ok mp =>
      match openJson temp_dir mp with
      | .error e => .error e
      | .ok manifest =>
          match manifest.lookup "entry_point" with
          | none => .error "Plugin manifest missing entry_point."
          | some ep =>
              if ep = "" then .error "Plugin manifest missing entry_point."
              else
                match splitOnChar ep ':' with
                | [module_name, _class_name] =>
                    match lookupEntry temp_dir (modulePathOf module_name) with
                    | some (Entry.file _) => .ok (modulePathOf module_name)
                    | _ => .error ("FileNotFoundError: " ++ module_name)
                | _ => .error "ValueError: unpack"

/-- The resolution rule the specification states (`Modelled from the spec:`
"Resolve the entry module file relative to the directory that contained the
manifest.  Fail with `EntryModuleMissing`."): same manifest-location logic,
but the module path is interpreted relative to the manifest's directory.
This is the comparison point for the refinement claim about the loader; the
source function above is the authority on what the code does. -/
def spec_resolve_module (temp_dir : List (String × Entry)) :
    Except String (List String) :=
  let manifestDir : Except String (List String) :=
    if (lookupEntry temp_dir ["plugin_manifest.json"]).isSome then
      .ok []
    else
      match temp_dir with
      | [(name, Entry.dir _)] => .ok [name]
      | _ => .error "ManifestMissing"
  match manifestDir with
  | .error e => .error e
  | .ok base =>
      match openJson temp_dir (base ++ ["plugin_manifest.json"]) with
      | .error e => .error e
      | .ok manifest =>
          match manifest.lookup "entry_point" with
          | none => .error "ManifestInvalid"
          | some ep =>
              if ep = "" then .error "ManifestInvalid"
              else
                match splitOnChar ep ':' with
                | [module_name, _class_name] =>
                    match lookupEntry temp_dir (base ++ modulePathOf module_name) with
                    | some (Entry.file _) => .ok (base ++ modulePathOf module_name)
                    | _ => .error "EntryModuleMissing"
                | _ => .error "ManifestInvalid"

/-! ## Reachable facade states

The states the running program can actually be in: the result of any
sequence of facade operations from the initial `Trenex()` state.  (Failed
operations leave their — possibly partially mutated — result state, exactly
as the Python exceptions do.) -/

inductive Reachable : TrenexState → Prop where
  | init : Reachable Trenex.initState
  | start (st : TrenexState) (name : String) :
      Reachable st → Reachable (Trenex.start_new_trnx st name).1
  | load (st : TrenexState) (decl : PluginDecl) (path : String) :
      Reachable st → Reachable (Trenex.load_plugin st decl path).1
  | unload (st : TrenexState) (n : String) :
      Reachable st → Reachable (Trenex.unload_plugin st n).1
  | connect (st : TrenexState) (a o b i : String) :
      Reachable st → Reachable (Trenex.connect_plugin_output_to_input st a o b i).1
  | build (st : TrenexState) :
      Reachable st → Reachable (Trenex.build_trnx st).1

/-! ## Concrete scenarios

Small graphs used to instantiate the claims: plugin `A` produces output `o`
(shape `(2,)`, float64), plugin `B` requires inputs `x` and `y` of the same
descriptor, plugin `C` produces `o2` with an incompatible descriptor
(shape `(3,)`, int32). -/

def d64 : PortDesc := { shape := [2], dtype := "float64" }

def declA : PluginDecl :=
  { className := "A", required_inputs := [], provided_outputs := [("o", d64)],
    processResult := .ok () }

def declB : PluginDecl :=
  { className := "B", required_inputs := [("x", d64), ("y", d64)],
    provided_outputs := [], processResult := .ok () }

def declC : PluginDecl :=
  { className := "C", required_inputs := [],
    provided_outputs := [("o2", { shape := [3], dtype := "int32" })],
    processResult := .ok () }

/-- `start_new_trnx("g")`. -/
def st1 : TrenexState := (Trenex.start_new_trnx Trenex.initState "g").1

def stA : TrenexState := (Trenex.load_plugin st1 declA "a.plg").1

def stAB : TrenexState := (Trenex.load_plugin stA declB "b.plg").1

def stABC : TrenexState := (Trenex.load_plugin stAB declC "c.plg").1

/-- `stABC` plus the edge `A.o → B.x`. -/
def stE1 : TrenexState :=
  (Trenex.connect_plugin_output_to_input stABC "A" "o" "B" "x").1

/-- `stAB` plus the edge `A.o → B.x` (`B.y` stays unconnected, so `build`
fails at verification). -/
def stC1 : TrenexState :=
  (Trenex.connect_plugin_output_to_input stAB "A" "o" "B" "x").1

/-- A graph whose single plugin `B1` requires input `x` that nothing feeds. -/
def declB1 : PluginDecl :=
  { className := "B", required_inputs := [("x", d64)], provided_outputs := [],
    processResult := .ok () }

/-- Like `declA` but its `process()` raises `"boom"` every tick. -/
def declAbad : PluginDecl :=
  { className := "A", required_inputs := [], provided_outputs := [("o", d64)],
    processResult := .error "boom" }

/-- A buildable two-plugin pipeline `A.o → B.x` in which `A.process()`
always raises. -/
def stR3 : TrenexState :=
  (Trenex.connect_plugin_output_to_input
    (Trenex.load_plugin (Trenex.load_plugin st1 declAbad "a.plg").1
      declB1 "b.plg").1 "A" "o" "B" "x").1

/-- The built state of that pipeline (`build_trnx` succeeds on it). -/
def stRun : TrenexState := (Trenex.build_trnx stR3).1

/-- A one-plugin graph with an unbound required input, for the build-failure
witness. -/
def stW1 : TrenexState := (Trenex.load_plugin st1 declB1 "b.plg").1

/-- Extracted archive of a `.plg` whose manifest sits in the single
subdirectory `pkg` next to its module file `mod.py`. -/
def arch7 : List (String × Entry) :=
  [("pkg", Entry.dir
    [("plugin_manifest.json", Entry.file (some [("entry_point", "mod:Cls")])),
     ("mod.py", Entry.file none)])]

/-- The active graph of `stAB`. -/
def gAB : GraphState :=
  { trnx := [("_name", Attr.str "g"), ("_plugins", Attr.ids [0, 1]),
             ("_is_built", Attr.bool false)],
    loaded_plugins := [("A", 0, "a.plg"), ("B", 1, "b.plg")],
    plugin_connections := [] }

/-- The active graph of `stABC`. -/
def gABC : GraphState :=
  { trnx := [("_name", Attr.str "g"), ("_plugins", Attr.ids [0, 1, 2]),
             ("_is_built", Attr.bool false)],
    loaded_plugins := [("A", 0, "a.plg"), ("B", 1, "b.plg"), ("C", 2, "c.plg")],
    plugin_connections := [] }

/-- The active graph of `stE1`. -/
def gE1 : GraphState :=
  { gABC with plugin_connections := [("A", [("o", [("B", "x")])])] }

/-- The active graph of `stW1`. -/
def gW1 : GraphState :=
  { trnx := [("_name", Attr.str "g"), ("_plugins", Attr.ids [0]),
             ("_is_built", Attr.bool false)],
    loaded_plugins := [("B", 0, "b.plg")],
    plugin_connections := [] }

/-- The (unchanged) materialisation state of `stW1`'s build: no connections,
so no regions are created. -/
def m0W : Mat :=
  { heap := [(0, PluginInst.ofDecl declB1)], regions := [], nextId := 1 }

/-- A concrete region for the write/read witness. -/
def port0 : SharedMemoryPort := SharedMemoryPort.create 7 "A_o" [2] "float64"

/-- Fan-in scenario: `A`, `B` (requiring only `x`), `C` loaded, with the two
edges `A.o → B.x` and `C.o2 → B.x`.  `build_trnx` succeeds on it, but the
second materialised region silently overwrites the first inside `B`. -/
def stF : TrenexState :=
  (Trenex.connect_plugin_output_to_input
    (Trenex.connect_plugin_output_to_input
      (Trenex.load_plugin
        (Trenex.load_plugin (Trenex.load_plugin st1 declA "a.plg").1
          declB1 "b.plg").1 declC "c.plg").1
      "A" "o" "B" "x").1
    "C" "o2" "B" "x").1

/-- The active graph of `stF`. -/
def gF : GraphState :=
  { trnx := [("_name", Attr.str "g"), ("_plugins", Attr.ids [0, 1, 2]),
             ("_is_built", Attr.bool false)],
    loaded_plugins := [("A", 0, "a.plg"), ("B", 1, "b.plg"), ("C", 2, "c.plg")],
    plugin_connections := [("A", [("o", [("B", "x")])]),
                           ("C", [("o2", [("B", "x")])])] }

/-- Fan-out scenario: `A` and `B` loaded, with the edges `A.o → B.x` and
`A.o → B.y` (one producer output feeding both inputs of `B`). -/
def stG : TrenexState :=
  (Trenex.connect_plugin_output_to_input stC1 "A" "o" "B" "y").1

/-- The active graph of `stG`. -/
def gG : GraphState :=
  { trnx := [("_name", Attr.str "g"), ("_plugins", Attr.ids [0, 1]),
             ("_is_built", Attr.bool false)],
    loaded_plugins := [("A", 0, "a.plg"), ("B", 1, "b.plg")],
    plugin_connections := [("A", [("o", [("B", "x"), ("B", "y")])])] }

/-- A consumer of class `C` requiring the single input `z`. -/
def declC1 : PluginDecl :=
  { className := "C", required_inputs := [("z", d64)], provided_outputs := [],
    processResult := .ok () }

/-- Mid-run tie scenario: plugins loaded in the order `A`, `B`, `C`; edges
declared in the order `A.o → C.z`, then `A.o → B.x`.  When `A` is emitted,
`B` and `C` reach in-degree zero in the same step — equally ready — and are
enqueued in successor order (edge declaration order here; a `set` in hash
order in the Python), not in plugin insertion order. -/
def stT : TrenexState :=
  (Trenex.connect_plugin_output_to_input
    (Trenex.connect_plugin_output_to_input
      (Trenex.load_plugin
        (Trenex.load_plugin (Trenex.load_plugin st1 declA "a.plg").1
          declB1 "b.plg").1 declC1 "c.plg").1
      "A" "o" "C" "z").1
    "A" "o" "B" "x").1

/-- The active graph of `stT`. -/
def gT : GraphState :=
  { trnx := [("_name", Attr.str "g"), ("_plugins", Attr.ids [0, 1, 2]),
             ("_is_built", Attr.bool false)],
    loaded_plugins := [("A", 0, "a.plg"), ("B", 1, "b.plg"), ("C", 2, "c.plg")],
    plugin_connections := [("A", [("o", [("C", "z"), ("B", "x")])])] }

/-! ## Helper lemmas about the dictionary model -/

theorem setk_nil' {β : Type} (k : κ) (v : β) :
    setk [] k v = [(k, v)] := rfl

theorem lookup_setk_self [BEq κ] [LawfulBEq κ] {β : Type}
    (l : List (κ × β)) (k : κ) (v : β) :
    (setk l k v).lookup k = some v := by
  induction l with
  | nil => simp [setk, List.lookup]
  | cons hd tl ih =>
      obtain ⟨k', v'⟩ := hd
      by_cases h : k' = k
      · simp [setk, h, List.lookup]
      · have hb : (k == k') = false := beq_eq_false_iff_ne.mpr (Ne.symm h)
        simp [setk, if_neg h, List.lookup, hb, ih]

theorem lookup_setk_other [BEq κ] [LawfulBEq κ] {β : Type}
    (l : List (κ × β)) (k k' : κ) (v : β)
    (h : k' ≠ k) : (setk l k v).lookup k' = l.lookup k' := by
  have hb : (k' == k) = false := beq_eq_false_iff_ne.mpr h
  induction l with
  | nil => simp [setk, List.lookup, hb]
  | cons hd tl ih =>
      obtain ⟨k₀, v₀⟩ := hd
      by_cases h₀ : k₀ = k
      · subst h₀
        simp [setk, List.lookup, hb]
      · by_cases hk : k' = k₀
        · subst hk
          simp [setk, if_neg h₀, List.lookup]
        · have hb₀ : (k' == k₀) = false := beq_eq_false_iff_ne.mpr hk
          simp [setk, if_neg h₀, List.lookup, hb₀, ih]

theorem lookupD_setk_self {β : Type} (l : List (String × β)) (k : String)
    (v dflt : β) : lookupD (setk l k v) k dflt = v := by
  simp [lookupD, lookup_setk_self]

theorem lookupD_setk_other {β : Type} (l : List (String × β)) (k k' : String)
    (v dflt : β) (h : k' ≠ k) :
    lookupD (setk l k v) k' dflt = lookupD l k' dflt := by
  simp [lookupD, lookup_setk_other l k k' v h]

theorem setk_length {κ' : Type} [DecidableEq κ'] [BEq κ'] [LawfulBEq κ']
    {β : Type} (l : List (κ' × β)) (k : κ') (v : β)
    (h : (l.lookup k).isSome) : (setk l k v).length = l.length := by
  induction l with
  | nil => simp [List.lookup] at h
  | cons hd tl ih =>
      obtain ⟨k₀, v₀⟩ := hd
      by_cases h₀ : k₀ = k
      · simp [setk, h₀]
      · have hb : (k == k₀) = false := beq_eq_false_iff_ne.mpr (fun e => h₀ e.symm)
        simp only [List.lookup, hb] at h
        simp [setk, if_neg h₀, ih h]

/-! ## Helper lemmas about Kahn's loop -/

theorem sumPos_setk (l : InDeg) (k : String) (v : Int) :
    sumPos (setk l k v) + (lookupD l k 0).toNat = sumPos l + v.toNat := by
  induction l with
  | nil => simp [setk, sumPos, lookupD, List.lookup]
  | cons hd tl ih =>
      obtain ⟨k', w⟩ := hd
      by_cases h : k' = k
      · subst h
        simp [setk, sumPos, lookupD, List.lookup]
        omega
      · have hb : (k == k') = false := beq_eq_false_iff_ne.mpr (Ne.symm h)
        simp only [setk, if_neg h, sumPos, lookupD, List.lookup, hb,
          List.map_cons, List.sum_cons] at *
        omega

theorem processDeps_measure (deps : List String) :
    ∀ (deg : InDeg) (q : List String),
    (processDeps deps deg q).2.length + sumPos (processDeps deps deg q).1 ≤
      q.length + sumPos deg := by
  induction deps with
  | nil => intro deg q; simp [processDeps]
  | cons d rest ih =>
      intro deg q
      simp only [processDeps]
      have hs := sumPos_setk deg d (lookupD deg d 0 - 1)
      have hstep := ih (setk deg d (lookupD deg d 0 - 1))
        (if lookupD deg d 0 - 1 = 0 then q ++ [d] else q)
      by_cases hv : lookupD deg d 0 - 1 = 0
      · rw [if_pos hv] at hstep ⊢
        rw [hv] at hs hstep ⊢
        have h1 : (q ++ [d]).length = q.length + 1 := by simp
        omega
      · rw [if_neg hv] at hstep ⊢
        omega

theorem kahnLoopF_nil (dg : DepGraph) (f : Nat) (deg : InDeg) (s : List String) :
    kahnLoopF dg f deg [] s = s := by
  cases f <;> rfl

theorem kahnLoopF_fuel_eq (dg : DepGraph) :
    ∀ (fuel fuel' : Nat) (deg : InDeg) (queue sorted : List String),
    queue.length + sumPos deg ≤ fuel → queue.length + sumPos deg ≤ fuel' →
    kahnLoopF dg fuel deg queue sorted = kahnLoopF dg fuel' deg queue sorted := by
  intro fuel
  induction fuel with
  | zero =>
      intro fuel' deg queue sorted h h'
      have hq : queue = [] := by
        cases queue with
        | nil => rfl
        | cons c rest => simp [List.length_cons] at h
      subst hq
      rw [kahnLoopF_nil, kahnLoopF_nil]
  | succ f ih =>
      intro fuel' deg queue sorted h h'
      cases queue with
      | nil => rw [kahnLoopF_nil, kahnLoopF_nil]
      | cons c rest =>
          cases fuel' with
          | zero => simp [List.length_cons] at h'
          | succ f' =>
              simp only [kahnLoopF]
              have hm := processDeps_measure (lookupD dg c []) deg rest
              apply ih
              · simp only [List.length_cons] at h
                omega
              · simp only [List.length_cons] at h'
                omega

theorem kahnRun_nil (dg : DepGraph) (deg : InDeg) (s : List String) :
    kahnRun dg deg [] s = s := kahnLoopF_nil dg _ deg s

theorem kahnRun_cons (dg : DepGraph) (deg : InDeg) (c : String)
    (rest s : List String) :
    kahnRun dg deg (c :: rest) s =
      kahnRun dg (processDeps (lookupD dg c []) deg rest).1
        (processDeps (lookupD dg c []) deg rest).2 (s ++ [c]) := by
  unfold kahnRun
  have hm : (c :: rest).length + sumPos deg = (rest.length + sumPos deg) + 1 := by
    simp only [List.length_cons]
    omega
  rw [hm]
  simp only [kahnLoopF]
  apply kahnLoopF_fuel_eq
  · have := processDeps_measure (lookupD dg c []) deg rest
    omega
  · exact Nat.le_refl _

/-! ## Lemmas: dependency-graph construction (for the execution order) -/

theorem lookup_map_const {β : Type} (v : β) (names : List String) (x : String) :
    (names.map (fun n => (n, v))).lookup x =
      if x ∈ names then some v else none := by
  induction names with
  | nil => simp [List.lookup]
  | cons n rest ih =>
      by_cases h : x = n
      · subst h
        simp [List.lookup]
      · have hb : (x == n) = false := beq_eq_false_iff_ne.mpr h
        simp [List.lookup, hb, ih, List.mem_cons, h]

theorem countP_eq_of_agree (p q : String → Bool) :
    ∀ l : List String, (∀ y ∈ l, p y = q y) → l.countP p = l.countP q := by
  intro l
  induction l with
  | nil => intro _; rfl
  | cons h t ih =>
      intro hag
      rw [List.countP_cons, List.countP_cons, hag h (by simp),
        ih (fun y hy => hag y (by simp [hy]))]

theorem countP_update (l : List String) (hnd : l.Nodup) (a : String)
    (ha : a ∈ l) (p p' : String → Bool)
    (hagree : ∀ y ∈ l, y ≠ a → p' y = p y)
    (hpa : p a = false) (hpa' : p' a = true) :
    l.countP p' = l.countP p + 1 := by
  induction l with
  | nil => simp at ha
  | cons h t ih =>
      rcases List.mem_cons.mp ha with rfl | hat
      · have hant : a ∉ t := (List.nodup_cons.mp hnd).1
        have ht : t.countP p' = t.countP p :=
          countP_eq_of_agree p' p t
            (fun y hy => hagree y (by simp [hy]) (fun e => hant (e ▸ hy)))
        simp [List.countP_cons, hpa, hpa', ht]
      · have hha : h ≠ a := fun e => (List.nodup_cons.mp hnd).1 (e ▸ hat)
        have hph : p' h = p h := hagree h (by simp) hha
        have ihv := ih (List.nodup_cons.mp hnd).2 hat
          (fun y hy hne => hagree y (by simp [hy]) hne)
        cases hh : p h <;> simp [List.countP_cons, hph, hh, ihv] <;> omega

theorem addEdge_mem (s : DepGraph × InDeg) (a b u y : String) :
    y ∈ lookupD (addEdge s a b).1 u [] ↔
      y ∈ lookupD s.1 u [] ∨ (u = a ∧ y = b) := by
  by_cases hmem : b ∈ lookupD s.1 a []
  · simp only [addEdge, if_pos hmem]
    constructor
    · exact Or.inl
    · rintro (h | ⟨hua, hyb⟩)
      · exact h
      · rw [hua, hyb]
        exact hmem
  · simp only [addEdge, if_neg hmem]
    by_cases hu : u = a
    · subst hu
      rw [lookupD_setk_self]
      simp [List.mem_append]
    · rw [lookupD_setk_other _ _ _ _ _ hu]
      simp [hu]

theorem addPairs_mem (a : String) :
    ∀ (prs : List (String × String)) (s : DepGraph × InDeg) (u y : String),
    y ∈ lookupD (addPairs a prs s).1 u [] ↔
      y ∈ lookupD s.1 u [] ∨ (u = a ∧ ∃ pr ∈ prs, pr.1 = y) := by
  intro prs
  induction prs with
  | nil => intro s u y; simp [addPairs]
  | cons pr rest ih =>
      intro s u y
      obtain ⟨b, port⟩ := pr
      show y ∈ lookupD (addPairs a rest (addEdge s a b)).1 u [] ↔ _
      rw [ih, addEdge_mem]
      constructor
      · rintro ((h | ⟨hua, hyb⟩) | ⟨hua, pr, hpr, hy⟩)
        · exact Or.inl h
        · exact Or.inr ⟨hua, (b, port), by simp, hyb.symm⟩
        · exact Or.inr ⟨hua, pr, by simp [hpr], hy⟩
      · rintro (h | ⟨hua, pr, hpr, hy⟩)
        · exact Or.inl (Or.inl h)
        · rcases List.mem_cons.mp hpr with heq | hpr'
          · refine Or.inl (Or.inr ⟨hua, ?_⟩)
            rw [heq] at hy
            exact hy.symm
          · exact Or.inr ⟨hua, pr, hpr', hy⟩

theorem addPorts_mem (a : String) :
    ∀ (ports : List (String × List (String × String)))
      (s : DepGraph × InDeg) (u y : String),
    y ∈ lookupD (addPorts a ports s).1 u [] ↔
      y ∈ lookupD s.1 u [] ∨
        (u = a ∧ ∃ port ∈ ports, ∃ pr ∈ port.2, pr.1 = y) := by
  intro ports
  induction ports with
  | nil => intro s u y; simp [addPorts]
  | cons port rest ih =>
      intro s u y
      obtain ⟨pname, prs⟩ := port
      show y ∈ lookupD (addPorts a rest (addPairs a prs s)).1 u [] ↔ _
      rw [ih, addPairs_mem]
      constructor
      · rintro ((h | ⟨hua, pr, hpr, hy⟩) | ⟨hua, port, hport, pr, hpr, hy⟩)
        · exact Or.inl h
        · exact Or.inr ⟨hua, (pname, prs), by simp, pr, hpr, hy⟩
        · exact Or.inr ⟨hua, port, by simp [hport], pr, hpr, hy⟩
      · rintro (h | ⟨hua, port, hport, pr, hpr, hy⟩)
        · exact Or.inl (Or.inl h)
        · rcases List.mem_cons.mp hport with heq | hport'
          · refine Or.inl (Or.inr ⟨hua, pr, ?_, hy⟩)
            rw [heq] at hpr
            exact hpr
          · exact Or.inr ⟨hua, port, hport', pr, hpr, hy⟩

theorem addConns_mem :
    ∀ (conns : Conns) (s : DepGraph × InDeg) (u y : String),
    y ∈ lookupD (addConns conns s).1 u [] ↔
      y ∈ lookupD s.1 u [] ∨
        (∃ pc ∈ conns, pc.1 = u ∧ ∃ port ∈ pc.2, ∃ pr ∈ port.2, pr.1 = y) := by
  intro conns
  induction conns with
  | nil => intro s u y; simp [addConns]
  | cons pc rest ih =>
      intro s u y
      obtain ⟨pa, ports⟩ := pc
      show y ∈ lookupD (addConns rest (addPorts pa ports s)).1 u [] ↔ _
      rw [ih, addPorts_mem]
      constructor
      · rintro ((h | ⟨hua, port, hport, pr, hpr, hy⟩) |
          ⟨pc, hpc, hpcu, port, hport, pr, hpr, hy⟩)
        · exact Or.inl h
        · exact Or.inr ⟨(pa, ports), by simp, hua.symm, port, hport, pr, hpr, hy⟩
        · exact Or.inr ⟨pc, by simp [hpc], hpcu, port, hport, pr, hpr, hy⟩
      · rintro (h | ⟨pc, hpc, hpcu, port, hport, pr, hpr, hy⟩)
        · exact Or.inl (Or.inl h)
        · rcases List.mem_cons.mp hpc with heq | hpc'
          · refine Or.inl (Or.inr ⟨?_, port, ?_, pr, hpr, hy⟩)
            · rw [heq] at hpcu
              exact hpcu.symm
            · rw [heq] at hport
              exact hport
          · exact Or.inr ⟨pc, hpc', hpcu, port, hport, pr, hpr, hy⟩

/-- The built dependency graph records exactly the declared edges. -/
theorem buildDepGraph_mem (names : List String) (conns : Conns)
    (u y : String) :
    y ∈ lookupD (buildDepGraph names conns).1 u [] ↔
      hasEdge conns u y = true := by
  unfold buildDepGraph
  rw [addConns_mem]
  have hinit : lookupD (names.map (fun n => (n, ([] : List String)))) u [] = [] := by
    unfold lookupD
    rw [lookup_map_const]
    by_cases hu : u ∈ names
    · rw [if_pos hu]
    · rw [if_neg hu]
  rw [hinit]
  simp only [List.not_mem_nil, false_or]
  unfold hasEdge
  simp only [List.any_eq_true, Bool.and_eq_true, decide_eq_true_eq]

/-! ## Lemmas: producer counting -/

theorem predCnt_append (dg : DepGraph) (S₁ S₂ : List String) (x : String) :
    predCnt dg (S₁ ++ S₂) x = predCnt dg S₁ x + predCnt dg S₂ x := by
  unfold predCnt
  exact List.countP_append _ _ _

theorem predCnt_singleton (dg : DepGraph) (c x : String) :
    predCnt dg [c] x = if x ∈ lookupD dg c [] then 1 else 0 := by
  by_cases h : x ∈ lookupD dg c [] <;> simp [predCnt, h]

theorem predCnt_le (dg : DepGraph) (S names : List String) (hnd : S.Nodup)
    (hsub : S ⊆ names) (x : String) :
    predCnt dg S x ≤ predCnt dg names x :=
  List.Subperm.countP_le _ (List.subperm_of_subset hnd hsub)

theorem predCnt_lt (dg : DepGraph) (S names : List String) (hndS : S.Nodup)
    (hsub : S ⊆ names) (a : String) (ha : a ∈ names) (haS : a ∉ S)
    (x : String) (hax : x ∈ lookupD dg a []) :
    predCnt dg S x < predCnt dg names x := by
  have h1 : (a :: S).Nodup := List.nodup_cons.mpr ⟨haS, hndS⟩
  have h2 : (a :: S) ⊆ names := by
    intro z hz
    rcases List.mem_cons.mp hz with heq | hz'
    · rw [heq]; exact ha
    · exact hsub hz'
  have h3 := List.Subperm.countP_le (fun a => decide (x ∈ lookupD dg a []))
    (List.subperm_of_subset h1 h2)
  have h4 : (a :: S).countP (fun a => decide (x ∈ lookupD dg a [])) =
      S.countP (fun a => decide (x ∈ lookupD dg a [])) + 1 := by
    simp [List.countP_cons, hax]
  unfold predCnt
  omega

/-! ## Lemmas: the graph-construction invariant -/

theorem graphOk_init (names : List String) (hnd : names.Nodup) :
    GraphOk names
      (names.map (fun n => (n, ([] : List String))),
       names.map (fun n => (n, (0 : Int)))) := by
  refine ⟨?_, ?_, ?_, ?_⟩
  · intro a ha
    show (names.map (fun n => (n, ([] : List String)))).lookup a = none
    rw [lookup_map_const, if_neg ha]
  · intro a
    show (lookupD (names.map (fun n => (n, ([] : List String)))) a []).Nodup
    unfold lookupD
    rw [lookup_map_const]
    by_cases h : a ∈ names
    · rw [if_pos h]; exact List.nodup_nil
    · rw [if_neg h]; exact List.nodup_nil
  · intro a b hb
    replace hb : b ∈ lookupD (names.map (fun n => (n, ([] : List String)))) a [] := hb
    unfold lookupD at hb
    rw [lookup_map_const] at hb
    by_cases h : a ∈ names
    · rw [if_pos h] at hb; simp at hb
    · rw [if_neg h] at hb; simp at hb
  · intro x hx
    show (names.map (fun n => (n, (0 : Int)))).lookup x = _
    rw [lookup_map_const, if_pos hx]
    have hz : predCnt (names.map (fun n => (n, ([] : List String)))) names x = 0 := by
      unfold predCnt
      rw [List.countP_eq_zero]
      intro a _
      simp only [decide_eq_true_eq, lookupD, lookup_map_const]
      by_cases h : a ∈ names <;> simp [h]
    rw [hz]
    rfl

theorem addEdge_ok (names : List String) (hnd : names.Nodup)
    (s : DepGraph × InDeg) (hok : GraphOk names s)
    (a b : String) (ha : a ∈ names) (hb : b ∈ names) :
    GraphOk names (addEdge s a b) := by
  by_cases hmem : b ∈ lookupD s.1 a []
  · have he : addEdge s a b = s := by simp [addEdge, hmem]
    rw [he]
    exact hok
  · have hdg : (addEdge s a b).1 = setk s.1 a (lookupD s.1 a [] ++ [b]) := by
      simp [addEdge, hmem]
    have hdeg : (addEdge s a b).2 = setk s.2 b (lookupD s.2 b 0 + 1) := by
      simp [addEdge, hmem]
    have hsucc : ∀ u, u ≠ a →
        lookupD (setk s.1 a (lookupD s.1 a [] ++ [b])) u [] = lookupD s.1 u [] :=
      fun u hu => lookupD_setk_other _ _ _ _ _ hu
    refine ⟨?_, ?_, ?_, ?_⟩
    · intro u hu
      rw [hdg, lookup_setk_other _ _ _ _ (fun e => hu (by rw [e]; exact ha))]
      exact hok.keys_none u hu
    · intro u
      rw [hdg]
      by_cases hu : u = a
      · subst hu
        rw [lookupD_setk_self]
        refine List.Nodup.append (hok.succ_nodup u) (List.nodup_singleton b) ?_
        intro z hz hz'
        rw [List.mem_singleton.mp hz'] at hz
        exact hmem hz
      · rw [hsucc u hu]
        exact hok.succ_nodup u
    · intro u y hy
      rw [hdg] at hy
      by_cases hu : u = a
      · subst hu
        rw [lookupD_setk_self] at hy
        rcases List.mem_append.mp hy with h | h
        · exact hok.succ_mem u y h
        · rw [List.mem_singleton.mp h]
          exact hb
      · rw [hsucc u hu] at hy
        exact hok.succ_mem u y hy
    · intro x hx
      rw [hdeg, hdg]
      by_cases hxb : x = b
      · subst hxb
        rw [lookup_setk_self]
        have hv : lookupD s.2 x 0 = ((predCnt s.1 names x : Nat) : Int) := by
          unfold lookupD
          rw [hok.deg_eq x hx]
        have hpc : predCnt (setk s.1 a (lookupD s.1 a [] ++ [x])) names x =
            predCnt s.1 names x + 1 := by
          unfold predCnt
          refine countP_update names hnd a ha _ _ ?_ ?_ ?_
          · intro y hy hne
            rw [lookupD_setk_other _ _ _ _ _ hne]
          · simp [hmem]
          · simp [lookupD_setk_self]
        rw [hpc, hv]
        push_cast
        rfl
      · rw [lookup_setk_other _ _ _ _ hxb, hok.deg_eq x hx]
        have hpc : predCnt (setk s.1 a (lookupD s.1 a [] ++ [b])) names x =
            predCnt s.1 names x := by
          unfold predCnt
          refine countP_eq_of_agree _ _ names ?_
          intro y _
          by_cases hy : y = a
          · subst hy
            rw [lookupD_setk_self]
            simp [List.mem_append, hxb]
          · rw [lookupD_setk_other _ _ _ _ _ hy]
        rw [hpc]

theorem addPairs_ok (names : List String) (hnd : names.Nodup) (a : String)
    (ha : a ∈ names) :
    ∀ (prs : List (String × String)) (s : DepGraph × InDeg),
    GraphOk names s → (∀ pr ∈ prs, pr.1 ∈ names) →
    GraphOk names (addPairs a prs s) := by
  intro prs
  induction prs with
  | nil => intro s hok _; exact hok
  | cons pr rest ih =>
      intro s hok hmem
      obtain ⟨b, port⟩ := pr
      exact ih (addEdge s a b)
        (addEdge_ok names hnd s hok a b ha (hmem (b, port) (by simp)))
        (fun pr hpr => hmem pr (by simp [hpr]))

theorem addPorts_ok (names : List String) (hnd : names.Nodup) (a : String)
    (ha : a ∈ names) :
    ∀ (ports : List (String × List (String × String))) (s : DepGraph × InDeg),
    GraphOk names s → (∀ port ∈ ports, ∀ pr ∈ port.2, pr.1 ∈ names) →
    GraphOk names (addPorts a ports s) := by
  intro ports
  induction ports with
  | nil => intro s hok _; exact hok
  | cons port rest ih =>
      intro s hok hmem
      obtain ⟨pname, prs⟩ := port
      exact ih (addPairs a prs s)
        (addPairs_ok names hnd a ha prs s hok
          (fun pr hpr => hmem (pname, prs) (by simp) pr hpr))
        (fun port hport pr hpr => hmem port (by simp [hport]) pr hpr)

theorem addConns_ok (names : List String) (hnd : names.Nodup) :
    ∀ (conns : Conns) (s : DepGraph × InDeg),
    GraphOk names s → ConnsWF names conns →
    GraphOk names (addConns conns s) := by
  intro conns
  induction conns with
  | nil => intro s hok _; exact hok
  | cons pc rest ih =>
      intro s hok hwf
      obtain ⟨pa, ports⟩ := pc
      have hpa : pa ∈ names := (hwf (pa, ports) (by simp)).1
      exact ih (addPorts pa ports s)
        (addPorts_ok names hnd pa hpa ports s hok
          (fun port hport pr hpr =>
            (hwf (pa, ports) (by simp)).2 port hport pr hpr))
        (fun pc hpc => hwf pc (by simp [hpc]))

theorem buildDepGraph_ok (names : List String) (conns : Conns)
    (hnd : names.Nodup) (hwf : ConnsWF names conns) :
    GraphOk names (buildDepGraph names conns) :=
  addConns_ok names hnd conns _ (graphOk_init names hnd) hwf

/-! ## Lemmas: the inner decrement loop -/

theorem processDeps_lookup (x : String) :
    ∀ (deps : List String) (deg : InDeg) (q : List String), deps.Nodup →
    (processDeps deps deg q).1.lookup x =
      (if x ∈ deps then some (lookupD deg x 0 - 1) else deg.lookup x) := by
  intro deps
  induction deps with
  | nil => intro deg q _; simp [processDeps]
  | cons d rest ih =>
      intro deg q hnd
      simp only [processDeps]
      rw [ih _ _ (List.nodup_cons.mp hnd).2]
      by_cases hx : x = d
      · subst hx
        have hxr : x ∉ rest := (List.nodup_cons.mp hnd).1
        rw [if_neg hxr, if_pos (by simp), lookup_setk_self]
      · by_cases hxr : x ∈ rest
        · rw [if_pos hxr, if_pos (by simp [hxr]),
            lookupD_setk_other _ _ _ _ _ hx]
        · rw [if_neg hxr, if_neg (by simp [hx, hxr]),
            lookup_setk_other _ _ _ _ hx]

theorem processDeps_queue :
    ∀ (deps : List String) (deg : InDeg) (q : List String), deps.Nodup →
    (processDeps deps deg q).2 =
      q ++ deps.filter (fun d => decide (lookupD deg d 0 - 1 = 0)) := by
  intro deps
  induction deps with
  | nil => intro deg q _; simp [processDeps]
  | cons d rest ih =>
      intro deg q hnd
      simp only [processDeps]
      rw [ih _ _ (List.nodup_cons.mp hnd).2]
      have hdr : d ∉ rest := (List.nodup_cons.mp hnd).1
      have hfilter : rest.filter
            (fun e => decide (lookupD (setk deg d (lookupD deg d 0 - 1)) e 0 - 1 = 0)) =
          rest.filter (fun e => decide (lookupD deg e 0 - 1 = 0)) := by
        refine List.filter_congr ?_
        intro e he
        rw [lookupD_setk_other _ _ _ _ _ (fun hed => hdr (by rw [← hed]; exact he))]
      rw [hfilter]
      by_cases hv : lookupD deg d 0 - 1 = 0
      · rw [if_pos hv, List.filter_cons_of_pos (by simp [hv])]
        simp [List.append_assoc]
      · rw [if_neg hv, List.filter_cons_of_neg (by simp [hv])]

/-! ## Lemmas: Kahn's loop preserves its invariant -/

theorem lookupD_of_not_key (dg : DepGraph) (a : String)
    (h : dg.lookup a = none) : lookupD dg a [] = [] := by
  unfold lookupD
  rw [h]

theorem loopOk_step (dg : DepGraph) (names : List String) (hnd : names.Nodup)
    (hkeys : ∀ a, a ∉ names → dg.lookup a = none)
    (hsnd : ∀ a, (lookupD dg a []).Nodup)
    (hsm : ∀ a b, b ∈ lookupD dg a [] → b ∈ names)
    (deg : InDeg) (c : String) (rest sorted : List String)
    (hinv : LoopOk dg names deg (c :: rest) sorted) :
    LoopOk dg names (processDeps (lookupD dg c []) deg rest).1
      (processDeps (lookupD dg c []) deg rest).2 (sorted ++ [c]) := by
  have hsucc_nd : (lookupD dg c []).Nodup := hsnd c
  have hnd0 := hinv.nd
  have hmem0 := hinv.mem
  have hcn : c ∈ names := hmem0 c (by simp)
  have hnd_parts := List.nodup_append.mp hnd0
  have hsorted_nd : sorted.Nodup := hnd_parts.1
  have hcs : c ∉ sorted := fun h => hnd_parts.2.2 h (by simp)
  have hsub : ∀ x ∈ sorted, x ∈ names :=
    fun x hx => hmem0 x (List.mem_append.mpr (Or.inl hx))
  have hdeg' := fun x => processDeps_lookup x (lookupD dg c []) deg rest hsucc_nd
  have hq' := processDeps_queue (lookupD dg c []) deg rest hsucc_nd
  have hval : ∀ x ∈ names,
      lookupD deg x 0 = (predCnt dg names x : Int) - predCnt dg sorted x := by
    intro x hx
    unfold lookupD
    rw [hinv.deg_eq x hx]
  have hcnt' : ∀ x, predCnt dg (sorted ++ [c]) x =
      predCnt dg sorted x + (if x ∈ lookupD dg c [] then 1 else 0) := by
    intro x
    rw [predCnt_append, predCnt_singleton]
  have hpredc : ∀ a, c ∈ lookupD dg a [] → a ∈ sorted := by
    intro a hac
    have han : a ∈ names := by
      by_contra hno
      rw [lookupD_of_not_key dg a (hkeys a hno)] at hac
      simp at hac
    by_contra hns
    have hlt := predCnt_lt dg sorted names hsorted_nd hsub a han hns c hac
    have heq := (hinv.count_iff c hcn).mp (by simp)
    omega
  have hfresh : ∀ d ∈ (lookupD dg c []).filter
      (fun d => decide (lookupD deg d 0 - 1 = 0)), d ∉ sorted ++ c :: rest := by
    intro d hd hmem
    obtain ⟨hds, hdv⟩ := List.mem_filter.mp hd
    have hdn : d ∈ names := hsm c d hds
    have hdv' : lookupD deg d 0 - 1 = 0 := of_decide_eq_true hdv
    rw [hval d hdn] at hdv'
    have hiff := (hinv.count_iff d hdn).mp hmem
    omega
  have hrearr : (sorted ++ [c]) ++ ((processDeps (lookupD dg c []) deg rest).2) =
      (sorted ++ c :: rest) ++ (lookupD dg c []).filter
        (fun d => decide (lookupD deg d 0 - 1 = 0)) := by
    rw [hq']
    simp [List.append_assoc]
  refine ⟨?_, ?_, ?_, ?_, ?_⟩
  · rw [hrearr]
    refine List.nodup_append.mpr ⟨hnd0, List.Nodup.filter _ hsucc_nd, ?_⟩
    intro z hz hz'
    exact hfresh z hz' hz
  · intro x hx
    rw [hrearr] at hx
    rcases List.mem_append.mp hx with h | h
    · exact hmem0 x h
    · exact hsm c x (List.mem_filter.mp h).1
  · intro x hx
    show (processDeps (lookupD dg c []) deg rest).1.lookup x = _
    rw [hdeg' x, hcnt' x]
    by_cases hxs : x ∈ lookupD dg c []
    · rw [if_pos hxs, if_pos hxs, hval x hx]
      congr 1
      push_cast
      ring
    · rw [if_neg hxs, if_neg hxs, hinv.deg_eq x hx]
      congr 2
  · intro x hx
    rw [hrearr, hcnt' x]
    constructor
    · intro hmem'
      rcases List.mem_append.mp hmem' with hold | hnew
      · have hiff := (hinv.count_iff x hx).mp hold
        by_cases hxs : x ∈ lookupD dg c []
        · exact absurd hiff
            (Nat.ne_of_lt (predCnt_lt dg sorted names hsorted_nd hsub c hcn hcs x hxs))
        · rw [if_neg hxs]
          omega
      · obtain ⟨hds, hdv⟩ := List.mem_filter.mp hnew
        have hdv' : lookupD deg x 0 - 1 = 0 := of_decide_eq_true hdv
        rw [hval x hx] at hdv'
        rw [if_pos hds]
        have hle := predCnt_le dg sorted names hsorted_nd hsub x
        omega
    · intro hcount
      by_cases hxs : x ∈ lookupD dg c []
      · rw [if_pos hxs] at hcount
        refine List.mem_append.mpr (Or.inr (List.mem_filter.mpr ⟨hxs, ?_⟩))
        refine decide_eq_true ?_
        rw [hval x hx]
        omega
      · rw [if_neg hxs] at hcount
        refine List.mem_append.mpr (Or.inl ?_)
        exact (hinv.count_iff x hx).mpr (by omega)
  · intro l₁ x l₂ hsplit a hax
    rcases List.eq_nil_or_concat l₂ with hnil | ⟨l₂', z, hcat⟩
    · subst hnil
      have hinj := List.append_inj' hsplit (by rfl)
      have hx : x = c := by
        have := hinj.2
        simp at this
        exact this.symm
      rw [← hinj.1]
      exact hpredc a (hx ▸ hax)
    · subst hcat
      have hassoc : sorted ++ [c] = (l₁ ++ x :: l₂') ++ [z] := by
        rw [hsplit]
        simp
      have hinj := List.append_inj' hassoc.symm (by rfl)
      exact hinv.topo l₁ x l₂' hinj.1.symm a hax

theorem kahnRun_ok (dg : DepGraph) (names : List String) (hnd : names.Nodup)
    (hkeys : ∀ a, a ∉ names → dg.lookup a = none)
    (hsnd : ∀ a, (lookupD dg a []).Nodup)
    (hsm : ∀ a b, b ∈ lookupD dg a [] → b ∈ names) :
    ∀ (n : Nat) (deg : InDeg) (queue sorted : List String),
      queue.length + sumPos deg ≤ n →
      LoopOk dg names deg queue sorted →
      (kahnRun dg deg queue sorted).Nodup ∧
      (∀ x ∈ kahnRun dg deg queue sorted, x ∈ names) ∧
      TP dg (kahnRun dg deg queue sorted) := by
  intro n
  induction n with
  | zero =>
      intro deg queue sorted hle hinv
      have hq : queue = [] := by
        cases queue with
        | nil => rfl
        | cons c r => simp [List.length_cons] at hle
      subst hq
      rw [kahnRun_nil]
      exact ⟨by simpa using hinv.nd, fun x hx => hinv.mem x (by simp [hx]),
        hinv.topo⟩
  | succ m ih =>
      intro deg queue sorted hle hinv
      cases queue with
      | nil =>
          rw [kahnRun_nil]
          exact ⟨by simpa using hinv.nd, fun x hx => hinv.mem x (by simp [hx]),
            hinv.topo⟩
      | cons c rest =>
          rw [kahnRun_cons]
          refine ih _ _ _ ?_
            (loopOk_step dg names hnd hkeys hsnd hsm deg c rest sorted hinv)
          have := processDeps_measure (lookupD dg c []) deg rest
          simp only [List.length_cons] at hle
          omega

theorem kahnRun_acc (dg : DepGraph) :
    ∀ (n : Nat) (deg : InDeg) (queue s₁ s₂ : List String),
      queue.length + sumPos deg ≤ n →
      kahnRun dg deg queue (s₁ ++ s₂) = s₁ ++ kahnRun dg deg queue s₂ := by
  intro n
  induction n with
  | zero =>
      intro deg queue s₁ s₂ hle
      have hq : queue = [] := by
        cases queue with
        | nil => rfl
        | cons c r => simp [List.length_cons] at hle
      subst hq
      rw [kahnRun_nil, kahnRun_nil]
  | succ m ih =>
      intro deg queue s₁ s₂ hle
      cases queue with
      | nil => rw [kahnRun_nil, kahnRun_nil]
      | cons c rest =>
          rw [kahnRun_cons, kahnRun_cons]
          rw [List.append_assoc]
          refine ih _ _ _ _ ?_
          have := processDeps_measure (lookupD dg c []) deg rest
          simp only [List.length_cons] at hle
          omega

theorem kahnRun_take (dg : DepGraph)
    (hsnd : ∀ a, (lookupD dg a []).Nodup) :
    ∀ (n : Nat) (deg : InDeg) (pre post sorted : List String),
      (pre ++ post).length + sumPos deg ≤ n →
      (kahnRun dg deg (pre ++ post) sorted).take (sorted.length + pre.length) =
        sorted ++ pre := by
  intro n
  induction n with
  | zero =>
      intro deg pre post sorted hle
      have hp : pre = [] ∧ post = [] := by
        cases pre with
        | nil =>
            cases post with
            | nil => exact ⟨rfl, rfl⟩
            | cons c r => simp [List.length_cons] at hle
        | cons c r => simp [List.length_cons] at hle
      rw [hp.1, hp.2]
      rw [List.nil_append, kahnRun_nil]
      simp
  | succ m ih =>
      intro deg pre post sorted hle
      cases pre with
      | nil =>
          simp only [List.nil_append, List.length_nil, Nat.add_zero,
            List.append_nil]
          have hacc : kahnRun dg deg post sorted =
              sorted ++ kahnRun dg deg post [] := by
            conv_lhs => rw [show sorted = sorted ++ [] from
              (List.append_nil sorted).symm]
            exact kahnRun_acc dg (m + 1) deg post sorted []
              (by simpa using hle)
          rw [hacc]
          exact List.take_left sorted _
      | cons c pre' =>
          rw [show (c :: pre') ++ post = c :: (pre' ++ post) from rfl,
            kahnRun_cons]
          have hq' := processDeps_queue (lookupD dg c []) deg (pre' ++ post)
            (hsnd c)
          rw [hq', List.append_assoc]
          have hmeas := processDeps_measure (lookupD dg c []) deg (pre' ++ post)
          rw [hq'] at hmeas
          have ih' := ih (processDeps (lookupD dg c []) deg (pre' ++ post)).1
            pre' ((post ++ (lookupD dg c []).filter
              (fun d => decide (lookupD deg d 0 - 1 = 0))))
            (sorted ++ [c]) ?_
          · have hlen : (sorted ++ [c]).length + pre'.length =
                sorted.length + (c :: pre').length := by
              simp [List.length_append, List.length_cons]
              omega
            rw [hlen] at ih'
            rw [ih']
            simp
          · simp only [List.length_append, List.length_cons] at hle hmeas ⊢
            omega

theorem seeds_eq (names : List String) (conns : Conns)
    (hnd : names.Nodup) (hwf : ConnsWF names conns) :
    names.filter
        (fun p => decide (lookupD (buildDepGraph names conns).2 p 0 = 0)) =
      names.filter (noProducer names conns) := by
  refine List.filter_congr ?_
  intro x hx
  have hgok := buildDepGraph_ok names conns hnd hwf
  have hl : lookupD (buildDepGraph names conns).2 x 0 =
      ((predCnt (buildDepGraph names conns).1 names x : Nat) : Int) := by
    unfold lookupD
    rw [hgok.deg_eq x hx]
  have hiff : (lookupD (buildDepGraph names conns).2 x 0 = 0) ↔
      (noProducer names conns x = true) := by
    rw [hl]
    unfold noProducer
    rw [List.all_eq_true]
    constructor
    · intro h a ha
      have hcnt : predCnt (buildDepGraph names conns).1 names x = 0 := by
        exact_mod_cast h
      have hnp := List.countP_eq_zero.mp hcnt a ha
      have hedge : ¬ (hasEdge conns a x = true) := by
        rw [← buildDepGraph_mem]
        simpa using hnp
      simp [hedge]
    · intro h
      have hcnt : predCnt (buildDepGraph names conns).1 names x = 0 := by
        refine List.countP_eq_zero.mpr ?_
        intro a ha
        have hh := h a ha
        simp only [Bool.not_eq_eq_eq_not, Bool.not_true] at hh
        simp [buildDepGraph_mem, hh]
      exact_mod_cast hcnt
  cases hq : noProducer names conns x with
  | true => exact decide_eq_true (hiff.mpr hq)
  | false =>
      refine decide_eq_false ?_
      intro hp
      rw [hiff.mp hp] at hq
      exact Bool.noConfusion hq

theorem indexOf_lt_of_split (l₁ : List String) (x : String) (l₂ : List String)
    (a : String) (hnd : (l₁ ++ x :: l₂).Nodup) (ha : a ∈ l₁) :
    (l₁ ++ x :: l₂).indexOf a < (l₁ ++ x :: l₂).indexOf x := by
  have hx1 : x ∉ l₁ := by
    intro hx
    exact (List.nodup_append.mp hnd).2.2 hx (by simp)
  rw [List.indexOf_append_of_mem ha, List.indexOf_append_of_not_mem hx1]
  have h0 : List.indexOf x (x :: l₂) = 0 := by simp
  rw [h0]
  have := List.indexOf_lt_length.mpr ha
  omega

/-! ## Lemmas: region materialisation -/

theorem lookup_append_some {β : Type} (l₁ l₂ : List (Nat × β)) (k : Nat)
    (v : β) (h : l₁.lookup k = some v) : (l₁ ++ l₂).lookup k = some v := by
  induction l₁ with
  | nil => simp [List.lookup] at h
  | cons kv rest ih =>
      obtain ⟨k₀, v₀⟩ := kv
      by_cases hk : k = k₀
      · subst hk
        simp [List.lookup] at h ⊢
        exact h
      · have hb : (k == k₀) = false := beq_eq_false_iff_ne.mpr hk
        simp [List.lookup, hb] at h ⊢
        exact ih h

theorem lookup_none_of_keys_ne {β : Type} (l : List (Nat × β)) (k : Nat)
    (h : ∀ kv ∈ l, kv.1 ≠ k) : l.lookup k = none := by
  induction l with
  | nil => rfl
  | cons kv rest ih =>
      obtain ⟨k₀, v₀⟩ := kv
      have hb : (k == k₀) = false :=
        beq_eq_false_iff_ne.mpr (fun e => h (k₀, v₀) (by simp) (by rw [e]))
      simp only [List.lookup, hb]
      exact ih (fun kv hkv => h kv (by simp [hkv]))

theorem lookup_append_of_none {β : Type} (l₁ l₂ : List (Nat × β)) (k : Nat)
    (h : l₁.lookup k = none) : (l₁ ++ l₂).lookup k = l₂.lookup k := by
  induction l₁ with
  | nil => rfl
  | cons kv rest ih =>
      obtain ⟨k₀, v₀⟩ := kv
      by_cases hk : k = k₀
      · subst hk
        simp [List.lookup] at h
      · have hb : (k == k₀) = false := beq_eq_false_iff_ne.mpr hk
        simp only [List.lookup, hb, List.cons_append] at h ⊢
        exact ih h

theorem Grows.refl' (m : Mat) : Grows m m :=
  ⟨⟨[], by simp, by simp⟩, Nat.le_refl _, id⟩

theorem Grows.comp {m₁ m₂ m₃ : Mat} (h₁ : Grows m₁ m₂) (h₂ : Grows m₂ m₃) :
    Grows m₁ m₃ := by
  obtain ⟨s₁, hs₁, hk₁⟩ := h₁.regions_pre
  obtain ⟨s₂, hs₂, hk₂⟩ := h₂.regions_pre
  refine ⟨⟨s₁ ++ s₂, ?_, ?_⟩, Nat.le_trans h₁.nextId_le h₂.nextId_le,
    fun hf => h₂.fresh_pres (h₁.fresh_pres hf)⟩
  · rw [hs₂, hs₁, List.append_assoc]
  · intro kv hkv
    rcases List.mem_append.mp hkv with h | h
    · exact hk₁ kv h
    · exact Nat.le_trans h₁.nextId_le (hk₂ kv h)

theorem Grows.lookup_regions {m m' : Mat} (h : Grows m m') (rid : Nat)
    (port : SharedMemoryPort) (hr : m.regions.lookup rid = some port) :
    m'.regions.lookup rid = some port := by
  obtain ⟨s, hs, _⟩ := h.regions_pre
  rw [hs]
  exact lookup_append_some _ _ _ _ hr

theorem set_input_port_ok (p : PluginInst) (i : String) (rid : Nat)
    (p' : PluginInst) (h : p.set_input_port i rid = .ok p') :
    p' = { p with inputs := setk p.inputs i rid } := by
  unfold PluginInst.set_input_port at h
  split at h
  · exact (Except.ok.inj h).symm
  · exact absurd h (by simp)

theorem set_output_port_ok_of_some (p : PluginInst) (o : String) (rid : Nat)
    (h : (p.provided_outputs.lookup o).isSome) :
    p.set_output_port o rid = .ok { p with outputs := setk p.outputs o rid } := by
  unfold PluginInst.set_output_port
  rw [if_pos h]

theorem bindConsumers_mat (lp : List (String × Nat × String)) (rid : Nat) :
    ∀ (pairs : List (String × String)) (m : Mat),
    (bindConsumers lp rid pairs m).1.regions = m.regions ∧
    (bindConsumers lp rid pairs m).1.nextId = m.nextId := by
  intro pairs
  induction pairs with
  | nil => intro m; exact ⟨rfl, rfl⟩
  | cons pr rest ih =>
      intro m
      obtain ⟨ip, iport⟩ := pr
      cases hip : lp.lookup ip with
      | none => simp [bindConsumers, hip]
      | some pa =>
          obtain ⟨ipid, pth⟩ := pa
          cases hinst : m.heap.lookup ipid with
          | none => simp [bindConsumers, hip, hinst]
          | some inst =>
              cases hset : inst.set_input_port iport rid with
              | error e => simp [bindConsumers, hip, hinst, hset]
              | ok inst' =>
                  simp only [bindConsumers, hip, hinst, hset]
                  exact ih { m with heap := setk m.heap ipid inst' }

theorem bindConsumers_grows (lp : List (String × Nat × String)) (rid : Nat)
    (pairs : List (String × String)) (m : Mat) :
    Grows m (bindConsumers lp rid pairs m).1 := by
  obtain ⟨hr, hn⟩ := bindConsumers_mat lp rid pairs m
  refine ⟨⟨[], by simp [hr], by simp⟩, by rw [hn], ?_⟩
  intro hf kv hkv
  rw [hr] at hkv
  rw [hn]
  exact hf kv hkv

theorem bindConsumers_outSlot (lp : List (String × Nat × String)) (rid : Nat) :
    ∀ (pairs : List (String × String)) (m : Mat) (pid : Nat) (o : String),
    outSlot (bindConsumers lp rid pairs m).1.heap pid o =
      outSlot m.heap pid o := by
  intro pairs
  induction pairs with
  | nil => intro m pid o; rfl
  | cons pr rest ih =>
      intro m pid o
      obtain ⟨ip, iport⟩ := pr
      cases hip : lp.lookup ip with
      | none => simp [bindConsumers, hip]
      | some pa =>
          obtain ⟨ipid, pth⟩ := pa
          cases hinst : m.heap.lookup ipid with
          | none => simp [bindConsumers, hip, hinst]
          | some inst =>
              cases hset : inst.set_input_port iport rid with
              | error e => simp [bindConsumers, hip, hinst, hset]
              | ok inst' =>
                  simp only [bindConsumers, hip, hinst, hset]
                  rw [ih]
                  unfold outSlot
                  by_cases hpid : pid = ipid
                  · subst hpid
                    rw [lookup_setk_self, hinst]
                    have hi := set_input_port_ok inst iport rid inst' hset
                    rw [hi]
                    rfl
                  · rw [lookup_setk_other _ _ _ _ hpid]

theorem bindConsumers_inSlot_pres (lp : List (String × Nat × String))
    (rid : Nat) :
    ∀ (pairs : List (String × String)) (m : Mat) (pid : Nat) (i : String),
    bindsIn lp pairs pid i = false →
    inSlot (bindConsumers lp rid pairs m).1.heap pid i =
      inSlot m.heap pid i := by
  intro pairs
  induction pairs with
  | nil => intro m pid i _; rfl
  | cons pr rest ih =>
      intro m pid i hnb
      obtain ⟨ip, iport⟩ := pr
      rw [bindsIn, List.any_eq_false] at hnb
      have hnb_head := hnb (ip, iport) (by simp)
      have hnb_rest : bindsIn lp rest pid i = false := by
        rw [bindsIn, List.any_eq_false]
        intro pr hpr
        exact hnb pr (by simp [hpr])
      cases hip : lp.lookup ip with
      | none => simp [bindConsumers, hip]
      | some pa =>
          obtain ⟨ipid, pth⟩ := pa
          cases hinst : m.heap.lookup ipid with
          | none => simp [bindConsumers, hip, hinst]
          | some inst =>
              cases hset : inst.set_input_port iport rid with
              | error e => simp [bindConsumers, hip, hinst, hset]
              | ok inst' =>
                  simp only [bindConsumers, hip, hinst, hset]
                  rw [ih _ _ _ hnb_rest]
                  unfold inSlot
                  by_cases hpid : pid = ipid
                  · subst hpid
                    rw [lookup_setk_self, hinst]
                    have hi := set_input_port_ok inst iport rid inst' hset
                    rw [hi]
                    simp only [Option.map_some']
                    have hiport : iport ≠ i := by
                      intro he
                      rw [hip] at hnb_head
                      simp [he] at hnb_head
                    rw [lookup_setk_other _ _ _ _ (fun e => hiport e.symm)]
                  · rw [lookup_setk_other _ _ _ _ hpid]

theorem bindConsumers_inSlot_set (lp : List (String × Nat × String))
    (rid : Nat) (b i : String) (pidB : Nat) (pb : String)
    (hlpb : lp.lookup b = some (pidB, pb)) :
    ∀ (p₁ p₂ : List (String × String)) (m : Mat),
    bindsIn lp p₂ pidB i = false →
    (bindConsumers lp rid (p₁ ++ (b, i) :: p₂) m).2 = none →
    inSlot (bindConsumers lp rid (p₁ ++ (b, i) :: p₂) m).1.heap pidB i =
      some (some rid) := by
  intro p₁
  induction p₁ with
  | nil =>
      intro p₂ m hnb₂ hsucc
      simp only [List.nil_append] at hsucc ⊢
      cases hinst : m.heap.lookup pidB with
      | none => simp [bindConsumers, hlpb, hinst] at hsucc
      | some inst =>
          cases hset : inst.set_input_port i rid with
          | error e => simp [bindConsumers, hlpb, hinst, hset] at hsucc
          | ok inst' =>
              simp only [bindConsumers, hlpb, hinst, hset] at hsucc ⊢
              rw [bindConsumers_inSlot_pres lp rid p₂ _ pidB i hnb₂]
              unfold inSlot
              rw [lookup_setk_self]
              have hi := set_input_port_ok inst i rid inst' hset
              rw [hi]
              simp only [Option.map_some']
              rw [lookup_setk_self]
  | cons pr p₁' ih =>
      intro p₂ m hnb₂ hsucc
      obtain ⟨ip, iport⟩ := pr
      rw [List.cons_append] at hsucc ⊢
      cases hip : lp.lookup ip with
      | none => simp [bindConsumers, hip] at hsucc
      | some pa =>
          obtain ⟨ipid, pth⟩ := pa
          cases hinst : m.heap.lookup ipid with
          | none => simp [bindConsumers, hip, hinst] at hsucc
          | some inst =>
              cases hset : inst.set_input_port iport rid with
              | error e => simp [bindConsumers, hip, hinst, hset] at hsucc
              | ok inst' =>
                  simp only [bindConsumers, hip, hinst, hset] at hsucc ⊢
                  exact ih p₂ _ hnb₂ hsucc

/-! ### One `(producer, out_port)` group (`matPort`) -/

theorem matPort_eq (lp : List (String × Nat × String)) (a : String)
    (opid : Nat) (o : String) (pairs : List (String × String)) (m : Mat)
    (oinst : PluginInst) (desc : PortDesc)
    (hinst : m.heap.lookup opid = some oinst)
    (hdesc : oinst.provided_outputs.lookup o = some desc) :
    matPort lp a opid o pairs m =
      bindConsumers lp m.nextId pairs
        { heap := setk m.heap opid
            { oinst with outputs := setk oinst.outputs o m.nextId },
          regions := m.regions ++
            [(m.nextId, SharedMemoryPort.create m.nextId (a ++ "_" ++ o)
              desc.shape desc.dtype)],
          nextId := m.nextId + 1 } := by
  have hso : oinst.set_output_port o m.nextId =
      .ok { oinst with outputs := setk oinst.outputs o m.nextId } :=
    set_output_port_ok_of_some oinst o m.nextId (by rw [hdesc]; rfl)
  simp only [matPort, hinst, hdesc, hso]

theorem matPort_success_inv (lp : List (String × Nat × String)) (a : String)
    (opid : Nat) (o : String) (pairs : List (String × String)) (m : Mat)
    (hsucc : (matPort lp a opid o pairs m).2 = none) :
    ∃ oinst desc, m.heap.lookup opid = some oinst ∧
      oinst.provided_outputs.lookup o = some desc := by
  cases hinst : m.heap.lookup opid with
  | none => simp [matPort, hinst] at hsucc
  | some oinst =>
      cases hdesc : oinst.provided_outputs.lookup o with
      | none => simp [matPort, hinst, hdesc] at hsucc
      | some desc => exact ⟨oinst, desc, rfl, hdesc⟩

theorem matPort_grows (lp : List (String × Nat × String)) (a : String)
    (opid : Nat) (o : String) (pairs : List (String × String)) (m : Mat) :
    Grows m (matPort lp a opid o pairs m).1 := by
  cases hinst : m.heap.lookup opid with
  | none => simp only [matPort, hinst]; exact Grows.refl' m
  | some oinst =>
      cases hdesc : oinst.provided_outputs.lookup o with
      | none => simp only [matPort, hinst, hdesc]; exact Grows.refl' m
      | some desc =>
          rw [matPort_eq lp a opid o pairs m oinst desc hinst hdesc]
          refine Grows.comp ?_ (bindConsumers_grows _ _ _ _)
          refine ⟨⟨[(m.nextId, SharedMemoryPort.create m.nextId (a ++ "_" ++ o)
            desc.shape desc.dtype)], rfl, ?_⟩, Nat.le_succ _, ?_⟩
          · intro kv hkv
            simp only [List.mem_singleton] at hkv
            rw [hkv]
          · intro hf kv hkv
            rcases List.mem_append.mp hkv with h | h
            · exact Nat.lt_succ_of_lt (hf kv h)
            · simp only [List.mem_singleton] at h
              rw [h]
              exact Nat.lt_succ_self _

theorem matPort_outSlot_self (lp : List (String × Nat × String)) (a : String)
    (opid : Nat) (o : String) (pairs : List (String × String)) (m : Mat)
    (oinst : PluginInst) (desc : PortDesc)
    (hinst : m.heap.lookup opid = some oinst)
    (hdesc : oinst.provided_outputs.lookup o = some desc) :
    outSlot (matPort lp a opid o pairs m).1.heap opid o =
      some (some m.nextId) := by
  rw [matPort_eq lp a opid o pairs m oinst desc hinst hdesc,
      bindConsumers_outSlot]
  unfold outSlot
  rw [lookup_setk_self]
  simp only [Option.map_some']
  show some ((setk oinst.outputs o m.nextId).lookup o) = some (some m.nextId)
  rw [lookup_setk_self]

theorem matPort_outSlot_pres (lp : List (String × Nat × String)) (a : String)
    (opid : Nat) (o : String) (pairs : List (String × String)) (m : Mat)
    (pid : Nat) (o' : String) (h : pid ≠ opid ∨ o' ≠ o) :
    outSlot (matPort lp a opid o pairs m).1.heap pid o' =
      outSlot m.heap pid o' := by
  cases hinst : m.heap.lookup opid with
  | none => simp only [matPort, hinst]
  | some oinst =>
      cases hdesc : oinst.provided_outputs.lookup o with
      | none => simp only [matPort, hinst, hdesc]
      | some desc =>
          rw [matPort_eq lp a opid o pairs m oinst desc hinst hdesc,
              bindConsumers_outSlot]
          unfold outSlot
          by_cases hpid : pid = opid
          · subst hpid
            cases h with
            | inl h => exact absurd rfl h
            | inr h =>
                rw [lookup_setk_self, hinst]
                simp only [Option.map_some']
                show some ((setk oinst.outputs o m.nextId).lookup o') =
                  some (oinst.outputs.lookup o')
                rw [lookup_setk_other _ _ _ _ h]
          · rw [lookup_setk_other _ _ _ _ hpid]

theorem matPort_inSlot_pres (lp : List (String × Nat × String)) (a : String)
    (opid : Nat) (o : String) (pairs : List (String × String)) (m : Mat)
    (pid : Nat) (i : String) (h : bindsIn lp pairs pid i = false) :
    inSlot (matPort lp a opid o pairs m).1.heap pid i =
      inSlot m.heap pid i := by
  cases hinst : m.heap.lookup opid with
  | none => simp only [matPort, hinst]
  | some oinst =>
      cases hdesc : oinst.provided_outputs.lookup o with
      | none => simp only [matPort, hinst, hdesc]
      | some desc =>
          rw [matPort_eq lp a opid o pairs m oinst desc hinst hdesc,
              bindConsumers_inSlot_pres lp m.nextId pairs _ pid i h]
          unfold inSlot
          by_cases hpid : pid = opid
          · subst hpid
            rw [lookup_setk_self, hinst]
            rfl
          · rw [lookup_setk_other _ _ _ _ hpid]

theorem matPort_inSlot_set (lp : List (String × Nat × String)) (a : String)
    (opid : Nat) (o b i : String) (pidB : Nat) (pb : String)
    (q₁ q₂ : List (String × String)) (m : Mat)
    (hlb : lp.lookup b = some (pidB, pb))
    (hq₂ : bindsIn lp q₂ pidB i = false)
    (hsucc : (matPort lp a opid o (q₁ ++ (b, i) :: q₂) m).2 = none) :
    inSlot (matPort lp a opid o (q₁ ++ (b, i) :: q₂) m).1.heap pidB i =
      some (some m.nextId) := by
  obtain ⟨oinst, desc, hinst, hdesc⟩ := matPort_success_inv _ _ _ _ _ _ hsucc
  rw [matPort_eq lp a opid o _ m oinst desc hinst hdesc] at hsucc ⊢
  exact bindConsumers_inSlot_set lp m.nextId b i pidB pb hlb q₁ q₂ _ hq₂ hsucc

theorem matPort_region (lp : List (String × Nat × String)) (a : String)
    (opid : Nat) (o : String) (pairs : List (String × String)) (m : Mat)
    (hfresh : RegFresh m)
    (hsucc : (matPort lp a opid o pairs m).2 = none) :
    ∃ port, (matPort lp a opid o pairs m).1.regions.lookup m.nextId =
      some port ∧ port.name = a ++ "_" ++ o := by
  obtain ⟨oinst, desc, hinst, hdesc⟩ := matPort_success_inv _ _ _ _ _ _ hsucc
  rw [matPort_eq lp a opid o pairs m oinst desc hinst hdesc]
  refine ⟨SharedMemoryPort.create m.nextId (a ++ "_" ++ o) desc.shape
    desc.dtype, ?_, rfl⟩
  rw [(bindConsumers_mat lp m.nextId pairs _).1]
  show (m.regions ++ [(m.nextId, SharedMemoryPort.create m.nextId
    (a ++ "_" ++ o) desc.shape desc.dtype)]).lookup m.nextId = _
  rw [lookup_append_of_none _ _ _ (lookup_none_of_keys_ne _ _
    (fun kv hkv => Nat.ne_of_lt (hfresh kv hkv)))]
  simp [List.lookup]

/-! ### All groups of one producer (`matPorts`) and the whole dict
(`matConns`) -/

theorem matPorts_append_err (lp : List (String × Nat × String)) (a : String)
    (opid : Nat) :
    ∀ (ps₁ ps₂ : List (String × List (String × String))) (m m₁ : Mat)
      (e : String),
    matPorts lp a opid ps₁ m = (m₁, some e) →
    matPorts lp a opid (ps₁ ++ ps₂) m = (m₁, some e) := by
  intro ps₁
  induction ps₁ with
  | nil =>
      intro ps₂ m m₁ e h
      simp only [matPorts] at h
      exact absurd (congrArg Prod.snd h) (by simp)
  | cons hd tl ih =>
      intro ps₂ m m₁ e h
      obtain ⟨o', pairs'⟩ := hd
      rw [List.cons_append]
      cases hmp : matPort lp a opid o' pairs' m with
      | mk m' r =>
          cases r with
          | some e' =>
              simp only [matPorts, hmp] at h ⊢
              exact h
          | none =>
              simp only [matPorts, hmp] at h ⊢
              exact ih ps₂ m' m₁ e h

theorem matPorts_append_ok (lp : List (String × Nat × String)) (a : String)
    (opid : Nat) :
    ∀ (ps₁ ps₂ : List (String × List (String × String))) (m m₁ : Mat),
    matPorts lp a opid ps₁ m = (m₁, none) →
    matPorts lp a opid (ps₁ ++ ps₂) m = matPorts lp a opid ps₂ m₁ := by
  intro ps₁
  induction ps₁ with
  | nil =>
      intro ps₂ m m₁ h
      simp only [matPorts] at h
      have hm : m = m₁ := congrArg Prod.fst h
      rw [List.nil_append, hm]
  | cons hd tl ih =>
      intro ps₂ m m₁ h
      obtain ⟨o', pairs'⟩ := hd
      rw [List.cons_append]
      cases hmp : matPort lp a opid o' pairs' m with
      | mk m' r =>
          cases r with
          | some e' =>
              simp only [matPorts, hmp] at h
              exact absurd (congrArg Prod.snd h) (by simp)
          | none =>
              simp only [matPorts, hmp] at h ⊢
              exact ih ps₂ m' m₁ h

theorem matConns_append_err (lp : List (String × Nat × String)) :
    ∀ (c₁ c₂ : Conns) (m m₁ : Mat) (e : String),
    matConns lp c₁ m = (m₁, some e) →
    matConns lp (c₁ ++ c₂) m = (m₁, some e) := by
  intro c₁
  induction c₁ with
  | nil =>
      intro c₂ m m₁ e h
      simp only [matConns] at h
      exact absurd (congrArg Prod.snd h) (by simp)
  | cons hd tl ih =>
      intro c₂ m m₁ e h
      obtain ⟨a', ports'⟩ := hd
      rw [List.cons_append]
      cases hla : lp.lookup a' with
      | none =>
          simp only [matConns, hla] at h ⊢
          exact h
      | some pz =>
          obtain ⟨opid', s⟩ := pz
          cases hmp : matPorts lp a' opid' ports' m with
          | mk m' r =>
              cases r with
              | some e' =>
                  simp only [matConns, hla, hmp] at h ⊢
                  exact h
              | none =>
                  simp only [matConns, hla, hmp] at h ⊢
                  exact ih c₂ m' m₁ e h

theorem matConns_append_ok (lp : List (String × Nat × String)) :
    ∀ (c₁ c₂ : Conns) (m m₁ : Mat),
    matConns lp c₁ m = (m₁, none) →
    matConns lp (c₁ ++ c₂) m = matConns lp c₂ m₁ := by
  intro c₁
  induction c₁ with
  | nil =>
      intro c₂ m m₁ h
      simp only [matConns] at h
      have hm : m = m₁ := congrArg Prod.fst h
      rw [List.nil_append, hm]
  | cons hd tl ih =>
      intro c₂ m m₁ h
      obtain ⟨a', ports'⟩ := hd
      rw [List.cons_append]
      cases hla : lp.lookup a' with
      | none =>
          simp only [matConns, hla] at h
          exact absurd (congrArg Prod.snd h) (by simp)
      | some pz =>
          obtain ⟨opid', s⟩ := pz
          cases hmp : matPorts lp a' opid' ports' m with
          | mk m' r =>
              cases r with
              | some e' =>
                  simp only [matConns, hla, hmp] at h
                  exact absurd (congrArg Prod.snd h) (by simp)
              | none =>
                  simp only [matConns, hla, hmp] at h ⊢
                  exact ih c₂ m' m₁ h

theorem matPorts_grows (lp : List (String × Nat × String)) (a : String)
    (opid : Nat) :
    ∀ (ports : List (String × List (String × String))) (m : Mat),
    Grows m (matPorts lp a opid ports m).1 := by
  intro ports
  induction ports with
  | nil => intro m; exact Grows.refl' m
  | cons hd tl ih =>
      intro m
      obtain ⟨o', pairs'⟩ := hd
      cases hmp : matPort lp a opid o' pairs' m with
      | mk m' r =>
          have hg : Grows m m' := by
            have hh := matPort_grows lp a opid o' pairs' m
            rw [hmp] at hh
            exact hh
          cases r with
          | some e => simp only [matPorts, hmp]; exact hg
          | none =>
              simp only [matPorts, hmp]
              exact Grows.comp hg (ih m')

theorem matConns_grows (lp : List (String × Nat × String)) :
    ∀ (conns : Conns) (m : Mat), Grows m (matConns lp conns m).1 := by
  intro conns
  induction conns with
  | nil => intro m; exact Grows.refl' m
  | cons hd tl ih =>
      intro m
      obtain ⟨a', ports'⟩ := hd
      cases hla : lp.lookup a' with
      | none => simp only [matConns, hla]; exact Grows.refl' m
      | some pz =>
          obtain ⟨opid', s⟩ := pz
          cases hmp : matPorts lp a' opid' ports' m with
          | mk m' r =>
              have hg : Grows m m' := by
                have hh := matPorts_grows lp a' opid' ports' m
                rw [hmp] at hh
                exact hh
              cases r with
              | some e => simp only [matConns, hla, hmp]; exact hg
              | none =>
                  simp only [matConns, hla, hmp]
                  exact Grows.comp hg (ih m')

theorem matPorts_outSlot_pres (lp : List (String × Nat × String)) (a : String)
    (opid pid : Nat) (o : String) :
    ∀ (ports : List (String × List (String × String))) (m : Mat),
    (pid ≠ opid ∨ portsSetsOut ports o = false) →
    outSlot (matPorts lp a opid ports m).1.heap pid o =
      outSlot m.heap pid o := by
  intro ports
  induction ports with
  | nil => intro m _; rfl
  | cons hd tl ih =>
      intro m h
      obtain ⟨o', pairs'⟩ := hd
      have hc : pid ≠ opid ∨ o ≠ o' := by
        cases h with
        | inl h => exact Or.inl h
        | inr h =>
            right
            rw [portsSetsOut, List.any_eq_false] at h
            have hh := h (o', pairs') (by simp)
            simp only [decide_eq_true_eq] at hh
            exact fun he => hh he.symm
      have ht : pid ≠ opid ∨ portsSetsOut tl o = false := by
        cases h with
        | inl h => exact Or.inl h
        | inr h =>
            right
            rw [portsSetsOut, List.any_eq_false] at h
            rw [portsSetsOut, List.any_eq_false]
            intro x hx
            exact h x (by simp [hx])
      cases hmp : matPort lp a opid o' pairs' m with
      | mk m' r =>
          have hpres : outSlot m'.heap pid o = outSlot m.heap pid o := by
            have hh := matPort_outSlot_pres lp a opid o' pairs' m pid o hc
            rw [hmp] at hh
            exact hh
          cases r with
          | some e => simp only [matPorts, hmp]; exact hpres
          | none =>
              simp only [matPorts, hmp]
              rw [ih m' ht]
              exact hpres

theorem matPorts_inSlot_pres (lp : List (String × Nat × String)) (a : String)
    (opid pid : Nat) (i : String) :
    ∀ (ports : List (String × List (String × String))) (m : Mat),
    portsBindIn lp ports pid i = false →
    inSlot (matPorts lp a opid ports m).1.heap pid i =
      inSlot m.heap pid i := by
  intro ports
  induction ports with
  | nil => intro m _; rfl
  | cons hd tl ih =>
      intro m h
      obtain ⟨o', pairs'⟩ := hd
      rw [portsBindIn, List.any_eq_false] at h
      have hc : bindsIn lp pairs' pid i = false := by
        have hh := h (o', pairs') (by simp)
        cases hb : bindsIn lp pairs' pid i
        · rfl
        · exact absurd hb hh
      have ht : portsBindIn lp tl pid i = false := by
        rw [portsBindIn, List.any_eq_false]
        intro x hx
        exact h x (by simp [hx])
      cases hmp : matPort lp a opid o' pairs' m with
      | mk m' r =>
          have hpres : inSlot m'.heap pid i = inSlot m.heap pid i := by
            have hh := matPort_inSlot_pres lp a opid o' pairs' m pid i hc
            rw [hmp] at hh
            exact hh
          cases r with
          | some e => simp only [matPorts, hmp]; exact hpres
          | none =>
              simp only [matPorts, hmp]
              rw [ih m' ht]
              exact hpres

theorem matConns_outSlot_pres (lp : List (String × Nat × String))
    (pid : Nat) (o : String) :
    ∀ (conns : Conns) (m : Mat),
    connsSetsOut lp conns pid o = false →
    outSlot (matConns lp conns m).1.heap pid o = outSlot m.heap pid o := by
  intro conns
  induction conns with
  | nil => intro m _; rfl
  | cons hd tl ih =>
      intro m h
      obtain ⟨a', ports'⟩ := hd
      rw [connsSetsOut, List.any_eq_false] at h
      have hhd := h (a', ports') (by simp)
      have htl : connsSetsOut lp tl pid o = false := by
        rw [connsSetsOut, List.any_eq_false]
        intro x hx
        exact h x (by simp [hx])
      cases hla : lp.lookup a' with
      | none => simp [matConns, hla]
      | some pz =>
          obtain ⟨opid', s⟩ := pz
          have hcond : pid ≠ opid' ∨ portsSetsOut ports' o = false := by
            rw [hla] at hhd
            by_cases hp : opid' = pid
            · right
              cases hps : portsSetsOut ports' o
              · rfl
              · exact absurd (by simp [hp, hps]) hhd
            · exact Or.inl (fun he => hp he.symm)
          cases hmp : matPorts lp a' opid' ports' m with
          | mk m' r =>
              have hpres : outSlot m'.heap pid o = outSlot m.heap pid o := by
                have hh := matPorts_outSlot_pres lp a' opid' pid o ports' m hcond
                rw [hmp] at hh
                exact hh
              cases r with
              | some e => simp only [matConns, hla, hmp]; exact hpres
              | none =>
                  simp only [matConns, hla, hmp]
                  rw [ih m' htl]
                  exact hpres

theorem matConns_inSlot_pres (lp : List (String × Nat × String))
    (pid : Nat) (i : String) :
    ∀ (conns : Conns) (m : Mat),
    connsBindIn lp conns pid i = false →
    inSlot (matConns lp conns m).1.heap pid i = inSlot m.heap pid i := by
  intro conns
  induction conns with
  | nil => intro m _; rfl
  | cons hd tl ih =>
      intro m h
      obtain ⟨a', ports'⟩ := hd
      rw [connsBindIn, List.any_eq_false] at h
      have hhd := h (a', ports') (by simp)
      have hpb : portsBindIn lp ports' pid i = false := by
        cases hb : portsBindIn lp ports' pid i
        · rfl
        · exact absurd hb hhd
      have htl : connsBindIn lp tl pid i = false := by
        rw [connsBindIn, List.any_eq_false]
        intro x hx
        exact h x (by simp [hx])
      cases hla : lp.lookup a' with
      | none => simp [matConns, hla]
      | some pz =>
          obtain ⟨opid', s⟩ := pz
          cases hmp : matPorts lp a' opid' ports' m with
          | mk m' r =>
              have hpres : inSlot m'.heap pid i = inSlot m.heap pid i := by
                have hh := matPorts_inSlot_pres lp a' opid' pid i ports' m hpb
                rw [hmp] at hh
                exact hh
              cases r with
              | some e => simp only [matConns, hla, hmp]; exact hpres
              | none =>
                  simp only [matConns, hla, hmp]
                  rw [ih m' htl]
                  exact hpres

/-- The heart of C6: in a successful materialisation run over a connection
dict split around one declared edge `(a, o, b, i)` — with no later fragment
rebinding the consumer slot `(pidB, i)` and no later group re-creating the
producer slot `(pidA, o)` — the producer's output `o` and the consumer's
input `i` end up bound to one and the same region, whose recorded name is
`a ++ "_" ++ o`. -/
theorem matConns_edge (lp : List (String × Nat × String))
    (a o b i pa pb : String) (pidA pidB : Nat)
    (c₁ c₂ : Conns) (ps₁ ps₂ : List (String × List (String × String)))
    (q₁ q₂ : List (String × String)) (m : Mat) (conns : Conns)
    (hconns : conns = c₁ ++ (a, ps₁ ++ (o, q₁ ++ (b, i) :: q₂) :: ps₂) :: c₂)
    (hla : lp.lookup a = some (pidA, pa))
    (hlb : lp.lookup b = some (pidB, pb))
    (hfresh : RegFresh m)
    (hq₂ : bindsIn lp q₂ pidB i = false)
    (hps₂b : portsBindIn lp ps₂ pidB i = false)
    (hc₂b : connsBindIn lp c₂ pidB i = false)
    (hps₂o : portsSetsOut ps₂ o = false)
    (hc₂o : connsSetsOut lp c₂ pidA o = false)
    (hsucc : (matConns lp conns m).2 = none) :
    ∃ rid port,
      outSlot (matConns lp conns m).1.heap pidA o = some (some rid) ∧
      inSlot (matConns lp conns m).1.heap pidB i = some (some rid) ∧
      (matConns lp conns m).1.regions.lookup rid = some port ∧
      port.name = a ++ "_" ++ o := by
  subst hconns
  cases h₁ : matConns lp c₁ m with
  | mk m₁ r₁ =>
    cases r₁ with
    | some e =>
        rw [matConns_append_err lp c₁ _ m m₁ e h₁] at hsucc
        exact absurd hsucc (by simp)
    | none =>
        have heq₁ := matConns_append_ok lp c₁
          ((a, ps₁ ++ (o, q₁ ++ (b, i) :: q₂) :: ps₂) :: c₂) m m₁ h₁
        rw [heq₁] at hsucc ⊢
        cases h₂ : matPorts lp a pidA ps₁ m₁ with
        | mk m₂ r₂ =>
          cases r₂ with
          | some e =>
              have he := matPorts_append_err lp a pidA ps₁
                ((o, q₁ ++ (b, i) :: q₂) :: ps₂) m₁ m₂ e h₂
              simp [matConns, hla, he] at hsucc
          | none =>
            have heq₂ := matPorts_append_ok lp a pidA ps₁
              ((o, q₁ ++ (b, i) :: q₂) :: ps₂) m₁ m₂ h₂
            cases h₃ : matPort lp a pidA o (q₁ ++ (b, i) :: q₂) m₂ with
            | mk m₃ r₃ =>
              cases r₃ with
              | some e =>
                  have he : matPorts lp a pidA
                      (ps₁ ++ (o, q₁ ++ (b, i) :: q₂) :: ps₂) m₁ =
                      (m₃, some e) := by
                    rw [heq₂]
                    simp only [matPorts, h₃]
                  simp [matConns, hla, he] at hsucc
              | none =>
                cases h₄ : matPorts lp a pidA ps₂ m₃ with
                | mk m₄ r₄ =>
                  cases r₄ with
                  | some e =>
                      have he : matPorts lp a pidA
                          (ps₁ ++ (o, q₁ ++ (b, i) :: q₂) :: ps₂) m₁ =
                          (m₄, some e) := by
                        rw [heq₂]
                        simp only [matPorts, h₃]
                        exact h₄
                      simp [matConns, hla, he] at hsucc
                  | none =>
                    have hports : matPorts lp a pidA
                        (ps₁ ++ (o, q₁ ++ (b, i) :: q₂) :: ps₂) m₁ =
                        (m₄, none) := by
                      rw [heq₂]
                      simp only [matPorts, h₃]
                      exact h₄
                    cases h₅ : matConns lp c₂ m₄ with
                    | mk m₅ r₅ =>
                      cases r₅ with
                      | some e => simp [matConns, hla, hports, h₅] at hsucc
                      | none =>
                        have hall : matConns lp
                            ((a, ps₁ ++ (o, q₁ ++ (b, i) :: q₂) :: ps₂) :: c₂)
                            m₁ = (m₅, none) := by
                          simp only [matConns, hla, hports]
                          exact h₅
                        rw [hall]
                        have hsucc₃ : (matPort lp a pidA o
                            (q₁ ++ (b, i) :: q₂) m₂).2 = none := by
                          rw [h₃]
                        have hg₁ : Grows m m₁ := by
                          have hh := matConns_grows lp c₁ m
                          rw [h₁] at hh
                          exact hh
                        have hg₂ : Grows m₁ m₂ := by
                          have hh := matPorts_grows lp a pidA ps₁ m₁
                          rw [h₂] at hh
                          exact hh
                        have hfresh₂ : RegFresh m₂ :=
                          (Grows.comp hg₁ hg₂).fresh_pres hfresh
                        obtain ⟨oinst, desc, hinst, hdesc⟩ :=
                          matPort_success_inv _ _ _ _ _ _ hsucc₃
                        have hout₃ : outSlot m₃.heap pidA o =
                            some (some m₂.nextId) := by
                          have hh := matPort_outSlot_self lp a pidA o
                            (q₁ ++ (b, i) :: q₂) m₂ oinst desc hinst hdesc
                          rw [h₃] at hh
                          exact hh
                        have hin₃ : inSlot m₃.heap pidB i =
                            some (some m₂.nextId) := by
                          have hh := matPort_inSlot_set lp a pidA o b i pidB pb
                            q₁ q₂ m₂ hlb hq₂ hsucc₃
                          rw [h₃] at hh
                          exact hh
                        obtain ⟨port, hreg₃, hname⟩ := by
                          have hh := matPort_region lp a pidA o
                            (q₁ ++ (b, i) :: q₂) m₂ hfresh₂ hsucc₃
                          rw [h₃] at hh
                          exact hh
                        have hg₄ : Grows m₃ m₄ := by
                          have hh := matPorts_grows lp a pidA ps₂ m₃
                          rw [h₄] at hh
                          exact hh
                        have hg₅ : Grows m₄ m₅ := by
                          have hh := matConns_grows lp c₂ m₄
                          rw [h₅] at hh
                          exact hh
                        have hout₄ : outSlot m₄.heap pidA o =
                            outSlot m₃.heap pidA o := by
                          have hh := matPorts_outSlot_pres lp a pidA pidA o
                            ps₂ m₃ (Or.inr hps₂o)
                          rw [h₄] at hh
                          exact hh
                        have hin₄ : inSlot m₄.heap pidB i =
                            inSlot m₃.heap pidB i := by
                          have hh := matPorts_inSlot_pres lp a pidA pidB i
                            ps₂ m₃ hps₂b
                          rw [h₄] at hh
                          exact hh
                        have hout₅ : outSlot m₅.heap pidA o =
                            outSlot m₄.heap pidA o := by
                          have hh := matConns_outSlot_pres lp pidA o c₂ m₄ hc₂o
                          rw [h₅] at hh
                          exact hh
                        have hin₅ : inSlot m₅.heap pidB i =
                            inSlot m₄.heap pidB i := by
                          have hh := matConns_inSlot_pres lp pidB i c₂ m₄ hc₂b
                          rw [h₅] at hh
                          exact hh
                        refine ⟨m₂.nextId, port, ?_, ?_, ?_, hname⟩
                        · rw [hout₅, hout₄]
                          exact hout₃
                        · rw [hin₅, hin₄]
                          exact hin₃
                        · exact hg₅.lookup_regions _ _
                            (hg₄.lookup_regions _ _ hreg₃)

/-! ### From the name-level no-fan-in condition (`destCount = 1`) to the
positional conditions of `matConns_edge` -/

theorem lookup_mem {κ' β : Type} [BEq κ'] [LawfulBEq κ'] (l : List (κ' × β))
    (k : κ') (v : β) (h : l.lookup k = some v) : (k, v) ∈ l := by
  induction l with
  | nil => simp [List.lookup] at h
  | cons kv tl ih =>
      obtain ⟨k₀, v₀⟩ := kv
      cases hbeq : (k == k₀) with
      | true =>
          have hk : k = k₀ := eq_of_beq hbeq
          subst hk
          simp only [List.lookup, hbeq] at h
          injection h with h'
          subst h'
          exact List.mem_cons_self _ _
      | false =>
          simp only [List.lookup, hbeq] at h
          exact List.mem_cons_of_mem _ (ih h)

/-- In a loaded-plugin dict whose instance ids are pairwise distinct, the
id determines the class name. -/
theorem lookup_pid_inj (lp : List (String × Nat × String))
    (hinj : (lp.map (fun kv => kv.2.1)).Nodup)
    (b b' : String) (pid : Nat) (x y : String)
    (hb : lp.lookup b = some (pid, x)) (hb' : lp.lookup b' = some (pid, y)) :
    b = b' := by
  have h1 : (b, pid, x) ∈ lp := lookup_mem lp b _ hb
  have h2 : (b', pid, y) ∈ lp := lookup_mem lp b' _ hb'
  have h3 := List.inj_on_of_nodup_map hinj h1 h2 rfl
  exact congrArg Prod.fst h3

/-- A dict with pairwise-distinct keys splits around a looked-up entry,
with the key absent from the tail. -/
theorem lookup_split {β : Type} (l : List (String × β)) (k : String) (v : β)
    (hnd : (l.map (fun kv => kv.1)).Nodup) (h : l.lookup k = some v) :
    ∃ l₁ l₂, l = l₁ ++ (k, v) :: l₂ ∧ k ∉ l₂.map (fun kv => kv.1) := by
  have hm : (k, v) ∈ l := lookup_mem l k v h
  obtain ⟨l₁, l₂, rfl⟩ := List.append_of_mem hm
  refine ⟨l₁, l₂, rfl, ?_⟩
  rw [List.map_append, List.map_cons] at hnd
  have h2 := (List.nodup_append.mp hnd).2.1
  exact (List.nodup_cons.mp h2).1

theorem countP_middle {α : Type} (p : α → Bool) (l₁ l₂ : List α) (x : α)
    (hx : p x = true) :
    (l₁ ++ x :: l₂).countP p = l₁.countP p + l₂.countP p + 1 := by
  simp [List.countP_append, List.countP_cons, hx]
  omega

theorem portsDest_append (ps₁ ps₂ : List (String × List (String × String)))
    (b i : String) :
    portsDest (ps₁ ++ ps₂) b i = portsDest ps₁ b i + portsDest ps₂ b i := by
  simp [portsDest]

theorem portsDest_cons (o' : String) (pairs : List (String × String))
    (ps : List (String × List (String × String))) (b i : String) :
    portsDest ((o', pairs) :: ps) b i =
      pairs.countP (fun pr => decide (pr = (b, i))) + portsDest ps b i := by
  simp [portsDest]

theorem destCount_append (c₁ c₂ : Conns) (b i : String) :
    destCount (c₁ ++ c₂) b i = destCount c₁ b i + destCount c₂ b i := by
  simp [destCount]

theorem destCount_cons (a' : String)
    (ports : List (String × List (String × String))) (c : Conns)
    (b i : String) :
    destCount ((a', ports) :: c) b i =
      portsDest ports b i + destCount c b i := by
  simp [destCount]

theorem bindsIn_false_of_countP_zero (lp : List (String × Nat × String))
    (hinj : (lp.map (fun kv => kv.2.1)).Nodup)
    (b i : String) (pidB : Nat) (pb : String)
    (hlb : lp.lookup b = some (pidB, pb))
    (q : List (String × String))
    (h : q.countP (fun pr => decide (pr = (b, i))) = 0) :
    bindsIn lp q pidB i = false := by
  rw [bindsIn, List.any_eq_false]
  rintro ⟨c, j⟩ hmem hp
  rw [Bool.and_eq_true] at hp
  obtain ⟨hj, hmatch⟩ := hp
  have hj' : j = i := of_decide_eq_true hj
  cases hlc : lp.lookup c with
  | none =>
      rw [hlc] at hmatch
      exact Bool.noConfusion hmatch
  | some pc =>
      obtain ⟨pidc, pxc⟩ := pc
      rw [hlc] at hmatch
      have hpidc : pidc = pidB := of_decide_eq_true hmatch
      have hcb : c = b := lookup_pid_inj lp hinj c b pidB pxc pb
        (by rw [hlc, hpidc]) hlb
      have hz := List.countP_eq_zero.mp h (c, j) hmem
      exact hz (by rw [hcb, hj']; simp)

theorem portsBindIn_false_of_portsDest_zero (lp : List (String × Nat × String))
    (hinj : (lp.map (fun kv => kv.2.1)).Nodup)
    (b i : String) (pidB : Nat) (pb : String)
    (hlb : lp.lookup b = some (pidB, pb))
    (ps : List (String × List (String × String)))
    (h : portsDest ps b i = 0) :
    portsBindIn lp ps pidB i = false := by
  rw [portsBindIn, List.any_eq_false]
  intro port hport
  have hz : port.2.countP (fun pr => decide (pr = (b, i))) = 0 :=
    List.sum_eq_zero_iff.mp h _ (List.mem_map_of_mem _ hport)
  have hb := bindsIn_false_of_countP_zero lp hinj b i pidB pb hlb port.2 hz
  simp [hb]

theorem connsBindIn_false_of_destCount_zero (lp : List (String × Nat × String))
    (hinj : (lp.map (fun kv => kv.2.1)).Nodup)
    (b i : String) (pidB : Nat) (pb : String)
    (hlb : lp.lookup b = some (pidB, pb))
    (c : Conns) (h : destCount c b i = 0) :
    connsBindIn lp c pidB i = false := by
  rw [connsBindIn, List.any_eq_false]
  intro pc hpc
  have hz : portsDest pc.2 b i = 0 :=
    List.sum_eq_zero_iff.mp h _ (List.mem_map_of_mem _ hpc)
  have hb := portsBindIn_false_of_portsDest_zero lp hinj b i pidB pb hlb
    pc.2 hz
  simp [hb]

theorem portsSetsOut_false_of_not_mem
    (ps : List (String × List (String × String))) (o : String)
    (h : o ∉ ps.map (fun p => p.1)) : portsSetsOut ps o = false := by
  rw [portsSetsOut, List.any_eq_false]
  intro port hport hcontra
  simp only [decide_eq_true_eq] at hcontra
  exact h (by rw [← hcontra]; exact List.mem_map_of_mem _ hport)

theorem connsSetsOut_false_of_not_mem (lp : List (String × Nat × String))
    (hinj : (lp.map (fun kv => kv.2.1)).Nodup)
    (a : String) (pidA : Nat) (pa : String)
    (hla : lp.lookup a = some (pidA, pa)) (o : String)
    (c : Conns) (h : a ∉ c.map (fun pc => pc.1)) :
    connsSetsOut lp c pidA o = false := by
  rw [connsSetsOut, List.any_eq_false]
  intro pc hpc
  cases hlc : lp.lookup pc.1 with
  | none => simp [hlc]
  | some pz =>
      obtain ⟨pidc, sc⟩ := pz
      simp only [hlc]
      intro hcontra
      rw [Bool.and_eq_true] at hcontra
      have hpidc : pidc = pidA := of_decide_eq_true hcontra.1
      have hca : pc.1 = a := lookup_pid_inj lp hinj pc.1 a pidA sc pa
        (by rw [hlc, hpidc]) hla
      exact h (by rw [← hca]; exact List.mem_map_of_mem _ hpc)

/-- Inversion of a *successful* `build_trnx`: materialisation succeeded, and
the final heap and region table are exactly the materialisation's (nothing
later in the pipeline touches them). -/
theorem build_trnx_success_inv (st : TrenexState) (g : GraphState)
    (hact : st.active = some g)
    (hsucc : (Trenex.build_trnx st).2 = none) :
    (matConns g.loaded_plugins g.plugin_connections
      { heap := st.heap, regions := st.regions, nextId := st.nextId }).2 =
      none ∧
    (Trenex.build_trnx st).1.heap =
      (matConns g.loaded_plugins g.plugin_connections
        { heap := st.heap, regions := st.regions, nextId := st.nextId }).1.heap ∧
    (Trenex.build_trnx st).1.regions =
      (matConns g.loaded_plugins g.plugin_connections
        { heap := st.heap, regions := st.regions, nextId := st.nextId }).1.regions := by
  cases hmat : matConns g.loaded_plugins g.plugin_connections
      { heap := st.heap, regions := st.regions, nextId := st.nextId } with
  | mk m r =>
    cases r with
    | some e => simp [Trenex.build_trnx, hact, hmat] at hsucc
    | none =>
        cases hord : compute_execution_order
            (g.loaded_plugins.map (fun x => x.1)) g.plugin_connections with
        | error e => simp [Trenex.build_trnx, hact, hmat, hord] at hsucc
        | ok order =>
          cases hids : collectIds g.loaded_plugins order with
          | error e => simp [Trenex.build_trnx, hact, hmat, hord, hids] at hsucc
          | ok pids =>
            cases hver : verifyAll m.heap pids with
            | some e =>
                simp [Trenex.build_trnx, hact, hmat, hord, hids, hver] at hsucc
            | none =>
                refine ⟨rfl, ?_, ?_⟩ <;>
                  simp [Trenex.build_trnx, hact, hmat, hord, hids, hver]

/-! ## Characterisation of `connect` on loaded plugins -/

/-- When both named plugins are loaded, `connect_plugin_output_to_input`
unconditionally appends the `(consumer, in_port)` pair and raises nothing:
there is no fan-in check and no descriptor check anywhere in it. -/
theorem connect_characterization (st : TrenexState) (g : GraphState)
    (a o b i : String) (pa pb : Nat × String)
    (hact : st.active = some g)
    (hout : g.loaded_plugins.lookup a = some pa)
    (hin : g.loaded_plugins.lookup b = some pb) :
    Trenex.connect_plugin_output_to_input st a o b i =
      ({ st with active := some { g with plugin_connections := Trenex.addConn g.plugin_connections a o b i } }, none) := by
  simp [Trenex.connect_plugin_output_to_input, hact, hout, hin]

/-- What `addConn` does to the pair list of its own `(producer, out_port)`
slot: append the new `(consumer, in_port)`. -/
theorem lookupD_addConn (conns : Conns) (a o b i : String) :
    lookupD (lookupD (Trenex.addConn conns a o b i) a []) o [] =
      lookupD (lookupD conns a []) o [] ++ [(b, i)] := by
  simp [Trenex.addConn, lookupD_setk_self]

/-! ## C8 — shared-region write/read round trip -/

/-- C8: for every region of shape `S` and element type `T`, `write(t)` fails
with the shape-mismatch `ValueError` when `t.shape ≠ S` or `t.dtype ≠ T`
(raising before any mutation, so the contents are untouched), and for a
conforming tensor `write` succeeds and a subsequent `read` returns a fresh
tensor equal to `t`, of shape `S` and dtype `T`. -/
theorem claim_C8_write_read (p : SharedMemoryPort) (t : Tensor) :
    (t.shape ≠ p.shape ∨ t.dtype ≠ p.dtype →
      p.write t = .error ("Incompatible data shape " ++ toString t.shape ++
        " or dtype " ++ t.dtype)) ∧
    (t.shape = p.shape → t.dtype = p.dtype →
      p.write t = .ok { p with contents := t.data } ∧
      SharedMemoryPort.read { p with contents := t.data } = t ∧
      (SharedMemoryPort.read { p with contents := t.data }).shape = p.shape ∧
      (SharedMemoryPort.read { p with contents := t.data }).dtype = p.dtype) := by
  constructor
  · intro h
    simp only [SharedMemoryPort.write, if_pos h]
  · intro h1 h2
    refine ⟨?_, ?_, ?_, ?_⟩
    · simp [SharedMemoryPort.write, h1, h2]
    · cases t
      simp_all [SharedMemoryPort.read]
    · simp [SharedMemoryPort.read]
    · simp [SharedMemoryPort.read]

theorem claim_C8_write_read_witness :
    (port0.write { shape := [3], dtype := "float64", data := [1, 2, 3] } =
      .error "Incompatible data shape [3] or dtype float64") ∧
    (port0.write { shape := [2], dtype := "float64", data := [3, 4] } =
      .ok { port0 with contents := [3, 4] }) ∧
    (SharedMemoryPort.read { port0 with contents := [3, 4] } =
      { shape := [2], dtype := "float64", data := [3, 4] }) := by
  refine ⟨?_, ?_, ?_⟩
  · exact (claim_C8_write_read port0
      { shape := [3], dtype := "float64", data := [1, 2, 3] }).1
      (Or.inl (by decide))
  · exact ((claim_C8_write_read port0
      { shape := [2], dtype := "float64", data := [3, 4] }).2 rfl rfl).1
  · exact ((claim_C8_write_read port0
      { shape := [2], dtype := "float64", data := [3, 4] }).2 rfl rfl).2.1

/-! ## C2 — fan-in at connect time -/

/-- C2 counterexample: in `stE1` the pair `(B, x)` is already the
destination of the recorded edge `A.o → B.x`, yet a second connect
`C.o2 → B.x` raises nothing (`FanInForbidden` does not exist) and records
the second edge. -/
theorem claim_C2_counterexample :
    (Trenex.connect_plugin_output_to_input stE1 "C" "o2" "B" "x").2 = none ∧
    (Trenex.connect_plugin_output_to_input stE1 "C" "o2" "B" "x").1.active =
      some { gE1 with plugin_connections :=
        [("A", [("o", [("B", "x")])]), ("C", [("o2", [("B", "x")])])] } := by
  constructor
  · decide
  · decide

/-- C2 (amended): `connect` performs no fan-in check — even when
`(consumer, in_port)` is already the destination of a recorded edge, a
subsequent connect naming the same pair succeeds (raises nothing) and
appends the second edge to the connection dict. -/
theorem claim_C2_amended (st : TrenexState) (g : GraphState)
    (a o b i a' o' : String) (pa pb : Nat × String)
    (hact : st.active = some g)
    (hout : g.loaded_plugins.lookup a = some pa)
    (hin : g.loaded_plugins.lookup b = some pb)
    (hfan : (b, i) ∈ lookupD (lookupD g.plugin_connections a' []) o' []) :
    (Trenex.connect_plugin_output_to_input st a o b i).2 = none ∧
    ∃ g', (Trenex.connect_plugin_output_to_input st a o b i).1.active = some g' ∧
      lookupD (lookupD g'.plugin_connections a []) o [] =
        lookupD (lookupD g.plugin_connections a []) o [] ++ [(b, i)] := by
  rw [connect_characterization st g a o b i pa pb hact hout hin]
  refine ⟨rfl, ⟨{ g with plugin_connections := Trenex.addConn g.plugin_connections a o b i },
    rfl, ?_⟩⟩
  exact lookupD_addConn g.plugin_connections a o b i

theorem claim_C2_amended_witness :
    (Trenex.connect_plugin_output_to_input stE1 "A" "o" "B" "x").2 = none ∧
    ∃ g', (Trenex.connect_plugin_output_to_input stE1 "A" "o" "B" "x").1.active =
        some g' ∧
      lookupD (lookupD g'.plugin_connections "A" []) "o" [] =
        lookupD (lookupD gE1.plugin_connections "A" []) "o" [] ++ [("B", "x")] :=
  claim_C2_amended stE1 gE1 "A" "o" "B" "x" "A" "o" (0, "a.plg") (1, "b.plg")
    (by decide) (by decide) (by decide) (by decide)

/-! ## C5 — descriptor compatibility at connect time -/

/-- C5 counterexample: `C.o2` has descriptor `((3,), int32)` and `B.y` has
`((2,), float64)` — incompatible — yet `connect` in `stABC` raises nothing
(`PortTypeMismatch` does not exist) and records the edge. -/
theorem claim_C5_counterexample :
    (Trenex.connect_plugin_output_to_input stABC "C" "o2" "B" "y").2 = none ∧
    (Trenex.connect_plugin_output_to_input stABC "C" "o2" "B" "y").1.active =
      some { gABC with plugin_connections := [("C", [("o2", [("B", "y")])])] } ∧
    stABC.heap.lookup 2 = some (PluginInst.ofDecl declC) ∧
    (PluginInst.ofDecl declC).provided_outputs.lookup "o2" =
      some { shape := [3], dtype := "int32" } ∧
    stABC.heap.lookup 1 = some (PluginInst.ofDecl declB) ∧
    (PluginInst.ofDecl declB).required_inputs.lookup "y" =
      some { shape := [2], dtype := "float64" } := by
  refine ⟨by decide, by decide, by decide, by decide, by decide, by decide⟩

/-- C5 (amended): `connect` checks only that the two named plugins are
loaded; descriptor compatibility is never consulted, so a connect whose
endpoint descriptors differ still succeeds and records the edge (the
mismatch surfaces only later, at run time, as a `write`/`read` shape
error). -/
theorem claim_C5_amended (st : TrenexState) (g : GraphState)
    (a o b i : String) (pa pb : Nat × String) (instA instB : PluginInst)
    (da db : PortDesc)
    (hact : st.active = some g)
    (hout : g.loaded_plugins.lookup a = some pa)
    (hin : g.loaded_plugins.lookup b = some pb)
    (hA : st.heap.lookup pa.1 = some instA)
    (hda : instA.provided_outputs.lookup o = some da)
    (hB : st.heap.lookup pb.1 = some instB)
    (hdb : instB.required_inputs.lookup i = some db)
    (hne : da ≠ db) :
    (Trenex.connect_plugin_output_to_input st a o b i).2 = none ∧
    ∃ g', (Trenex.connect_plugin_output_to_input st a o b i).1.active = some g' ∧
      lookupD (lookupD g'.plugin_connections a []) o [] =
        lookupD (lookupD g.plugin_connections a []) o [] ++ [(b, i)] := by
  rw [connect_characterization st g a o b i pa pb hact hout hin]
  refine ⟨rfl, ⟨{ g with plugin_connections := Trenex.addConn g.plugin_connections a o b i },
    rfl, ?_⟩⟩
  exact lookupD_addConn g.plugin_connections a o b i

theorem claim_C5_amended_witness :
    (Trenex.connect_plugin_output_to_input stABC "C" "o2" "B" "y").2 = none ∧
    ∃ g', (Trenex.connect_plugin_output_to_input stABC "C" "o2" "B" "y").1.active =
        some g' ∧
      lookupD (lookupD g'.plugin_connections "C" []) "o2" [] =
        lookupD (lookupD gABC.plugin_connections "C" []) "o2" [] ++ [("B", "y")] :=
  claim_C5_amended stABC gABC "C" "o2" "B" "y" (2, "c.plg") (1, "b.plg")
    (PluginInst.ofDecl declC) (PluginInst.ofDecl declB)
    { shape := [3], dtype := "int32" } { shape := [2], dtype := "float64" }
    (by decide) (by decide) (by decide) (by decide) (by decide) (by decide)
    (by decide) (by decide)

/-! ## C9 — duplicate plugin names at load time -/

/-- C9 counterexample: `stAB` already holds a plugin of class `A`; loading a
second package with entry class `A` raises nothing (`DuplicatePlugin` does
not exist), silently replaces the map entry (now pointing to the new
instance id 2) and appends the new instance to the TRNX plugin list, which
now has three entries for two class names. -/
theorem claim_C9_counterexample :
    (Trenex.load_plugin stAB declA "a2.plg").2 = none ∧
    (Trenex.load_plugin stAB declA "a2.plg").1.active =
      some { trnx := [("_name", Attr.str "g"), ("_plugins", Attr.ids [0, 1, 2]),
                      ("_is_built", Attr.bool false)],
             loaded_plugins := [("A", 2, "a2.plg"), ("B", 1, "b.plg")],
             plugin_connections := [] } := by
  refine ⟨by decide, by decide⟩

/-- C9 (amended): `load_plugin` performs no duplicate-name check.  Loading a
package whose entry class name is already present raises nothing, replaces
the loaded-plugin dict entry in place (the dict does not grow), and appends
the fresh instance to the TRNX `_plugins` list (which does grow, keeping the
old instance too). -/
theorem claim_C9_amended (st : TrenexState) (g : GraphState)
    (decl : PluginDecl) (path : String) (pid0 : Nat) (path0 : String)
    (l : List Nat)
    (hact : st.active = some g)
    (hdup : g.loaded_plugins.lookup decl.className = some (pid0, path0))
    (hpl : g.trnx.lookup "_plugins" = some (Attr.ids l)) :
    Trenex.load_plugin st decl path =
      ({ st with
          heap := setk st.heap st.nextId (PluginInst.ofDecl decl),
          nextId := st.nextId + 1,
          active := some { g with
            loaded_plugins := setk g.loaded_plugins decl.className (st.nextId, path),
            trnx := setk g.trnx "_plugins" (Attr.ids (l ++ [st.nextId])) } },
        none) ∧
    (setk g.loaded_plugins decl.className (st.nextId, path)).length =
      g.loaded_plugins.length := by
  constructor
  · simp [Trenex.load_plugin, hact, hpl]
  · exact setk_length _ _ _ (by rw [hdup]; rfl)

/-! ## C1 — build is not all-or-nothing -/

/-- C1 counterexample: in `stC1` (plugins `A`, `B`, edge `A.o → B.x`, `B.y`
unbound) `build_trnx` fails at verification, but nothing unwinds: the raw
`ValueError` text escapes instead of a wrapped `BuildFailed`, the region
`A_o` created during materialisation is still alive, `B`'s input binding
survives, and the frozen order has already been written to the `plugins`
attribute — only `_is_built` is still `false`. -/
theorem claim_C1_counterexample :
    (Trenex.build_trnx stC1).2 = some "Not all required inputs set." ∧
    (Trenex.build_trnx stC1).1.regions =
      [(2, { id := 2, name := "A_o", shape := [2], dtype := "float64",
             contents := [0, 0] })] ∧
    (Trenex.build_trnx stC1).1.heap.lookup 1 =
      some { className := "B", required_inputs := [("x", d64), ("y", d64)],
             provided_outputs := [], inputs := [("x", 2)], outputs := [],
             processResult := .ok () } ∧
    (Trenex.build_trnx stC1).1.active =
      some { trnx := [("_name", Attr.str "g"), ("_plugins", Attr.ids [0, 1]),
                      ("_is_built", Attr.bool false),
                      ("plugins", Attr.ids [0, 1])],
             loaded_plugins := [("A", 0, "a.plg"), ("B", 1, "b.plg")],
             plugin_connections := [("A", [("o", [("B", "x")])])] } := by
  refine ⟨by decide, by decide, by decide, by decide⟩

/-- C1 (amended): when `verify()` raises during `build_trnx`, the exception
propagates unwrapped (no `BuildFailed`), and nothing is destroyed or
reverted — the returned state keeps every region and binding produced by
materialisation, keeps the already-computed execution order, and has the
ordered plugin list already assigned to the TRNX's `plugins` attribute;
only `_is_built` (assigned after the verify loop) is left untouched. -/
theorem claim_C1_amended (st : TrenexState) (g : GraphState) (m : Mat)
    (order : List String) (pids : List Nat) (e : String)
    (hact : st.active = some g)
    (hmat : matConns g.loaded_plugins g.plugin_connections
      { heap := st.heap, regions := st.regions, nextId := st.nextId } = (m, none))
    (hord : compute_execution_order (g.loaded_plugins.map (fun x => x.1))
      g.plugin_connections = .ok order)
    (hids : collectIds g.loaded_plugins order = .ok pids)
    (hver : verifyAll m.heap pids = some e) :
    Trenex.build_trnx st =
      ({ st with heap := m.heap, regions := m.regions, nextId := m.nextId,
                 execution_order := order,
                 active := some { g with trnx := setk g.trnx "plugins" (Attr.ids pids) } },
        some e) := by
  simp only [Trenex.build_trnx, hact, hmat, hord, hids, hver]

theorem claim_C1_amended_witness :
    Trenex.build_trnx stW1 =
      ({ stW1 with heap := m0W.heap, regions := m0W.regions,
                   nextId := m0W.nextId, execution_order := ["B"],
                   active := some { gW1 with trnx := setk gW1.trnx "plugins" (Attr.ids [0]) } },
        some "Not all required inputs set.") :=
  claim_C1_amended stW1 gW1 m0W ["B"] [0] "Not all required inputs set."
    (by decide) (by decide) (by decide) (by decide) (by decide)

/-! ## C7 — entry-module resolution in the loader -/

/-- C7 counterexample: in the archive `arch7` the manifest is found in the
single subdirectory `pkg` and names `entry_point` `"mod:Cls"`; the module
file `mod.py` sits next to the manifest (so resolution relative to the
manifest's directory, as the claim states, would succeed with
`pkg/mod.py`), yet `load_plugin` errors: it joins the module path onto the
extraction root, where no `mod.py` exists. -/
theorem claim_C7_counterexample :
    load_plugin_module arch7 = .error "FileNotFoundError: mod" ∧
    spec_resolve_module arch7 = .ok ["pkg", "mod.py"] := by
  refine ⟨by decide, by decide⟩

/-- C7 (amended): the loader resolves the entry module file named by
`entry_point` relative to the *extraction root* (`temp_dir`), even when
`plugin_manifest.json` was located one directory down in the single
subdirectory; it loads the root-relative file when present and otherwise
fails with the file-not-found error raised at module load. -/
theorem claim_C7_amended (temp_dir : List (String × Entry)) (dname : String)
    (sub : List (String × Entry)) (manifest : List (String × String))
    (ep mn cn : String)
    (hroot : lookupEntry temp_dir ["plugin_manifest.json"] = none)
    (hsingle : temp_dir = [(dname, Entry.dir sub)])
    (hjson : openJson temp_dir [dname, "plugin_manifest.json"] = .ok manifest)
    (hep : manifest.lookup "entry_point" = some ep)
    (hne : ep ≠ "")
    (hsplit : splitOnChar ep ':' = [mn, cn]) :
    load_plugin_module temp_dir =
      (match lookupEntry temp_dir (modulePathOf mn) with
       | some (Entry.file c) => Except.ok (modulePathOf mn)
       | _ => Except.error ("FileNotFoundError: " ++ mn)) := by
  subst hsingle
  simp [load_plugin_module, hroot, hjson, hep, hsplit, if_neg hne,
    Option.isSome_none]

theorem claim_C7_amended_witness :
    load_plugin_module arch7 =
      (match lookupEntry arch7 (modulePathOf "mod") with
       | some (Entry.file c) => Except.ok (modulePathOf "mod")
       | _ => Except.error ("FileNotFoundError: " ++ "mod")) :=
  claim_C7_amended arch7 "pkg"
    [("plugin_manifest.json", Entry.file (some [("entry_point", "mod:Cls")])),
     ("mod.py", Entry.file none)]
    [("entry_point", "mod:Cls")] "mod:Cls" "mod" "Cls"
    rfl rfl (by decide) (by decide) (by decide) (by decide)

/-! ## C3 — the computed execution order

The claim's final clause — ties among equally-ready plugins are broken by
*plugin insertion order* — is false of the code.  The FIFO queue preserves
insertion order only for the initial zero-in-degree seeds; a plugin that
becomes ready mid-run is enqueued when its last producer is emitted, in the
order the emitted plugin's *successors* are traversed — a Python `set`,
iterated in hash order (edge declaration order in this embedding).  `stT`
refutes the clause concretely; the rest of the claim is proved below. -/

/-- C3 counterexample: in `stT` the plugins are loaded in the order
`A`, `B`, `C` and the edges declared in the order `A.o → C.z`, `A.o → B.x`.
`B` and `C` become ready simultaneously when `A` is emitted, yet the
computed order is `["A", "C", "B"]` — successor (edge) order, not the
claimed plugin insertion order `["A", "B", "C"]` — and the build succeeds
with that order. -/
theorem claim_C3_counterexample :
    stT.active = some gT ∧
    gT.loaded_plugins.map (fun kv => kv.1) = ["A", "B", "C"] ∧
    gT.plugin_connections = [("A", [("o", [("C", "z"), ("B", "x")])])] ∧
    compute_execution_order ["A", "B", "C"] gT.plugin_connections =
      .ok ["A", "C", "B"] ∧
    (Trenex.build_trnx stT).2 = none ∧
    (Trenex.build_trnx stT).1.execution_order = ["A", "C", "B"] := by
  decide

/-- C3 (amended): for every successful `_compute_execution_order` over the
loaded plugin names (no duplicates — the loaded-plugin dict is keyed by
class name) and a connection dict naming only loaded plugins (which
`connect` guarantees): the computed order has length exactly N, is a
permutation of the loaded plugin names, places the producer strictly before
the consumer for every direct or transitive declared edge, and begins with
exactly the plugins that have no producer, in insertion order — the FIFO
discipline pins down insertion order for the initial seeds only; mid-run
ties follow successor traversal order (see `stT`). -/
theorem claim_C3_execution_order (names : List String) (conns : Conns)
    (order : List String) (hnd : names.Nodup) (hwf : ConnsWF names conns)
    (hok : compute_execution_order names conns = .ok order) :
    order.length = names.length ∧
    order.Perm names ∧
    (∀ a b, Relation.TransGen (fun u v => hasEdge conns u v = true) a b →
      order.indexOf a < order.indexOf b) ∧
    order.take (names.filter (noProducer names conns)).length =
      names.filter (noProducer names conns) := by
  have hgok := buildDepGraph_ok names conns hnd hwf
  simp only [compute_execution_order] at hok
  split at hok
  · exact absurd hok (by simp)
  next hcond =>
    have hlen : (kahnRun (buildDepGraph names conns).1
        (buildDepGraph names conns).2
        (names.filter
          (fun p => decide (lookupD (buildDepGraph names conns).2 p 0 = 0)))
        []).length = names.length := not_not.mp hcond
    have horder := Except.ok.inj hok
    subst horder
    have hinv : LoopOk (buildDepGraph names conns).1 names
        (buildDepGraph names conns).2
        (names.filter
          (fun p => decide (lookupD (buildDepGraph names conns).2 p 0 = 0)))
        [] := by
      refine ⟨?_, ?_, ?_, ?_, ?_⟩
      · simpa using List.Nodup.filter _ hnd
      · intro x hx
        simp only [List.nil_append] at hx
        exact (List.mem_filter.mp hx).1
      · intro x hx
        rw [hgok.deg_eq x hx]
        simp [predCnt]
      · intro x hx
        simp only [List.nil_append]
        have hl : lookupD (buildDepGraph names conns).2 x 0 =
            ((predCnt (buildDepGraph names conns).1 names x : Nat) : Int) := by
          unfold lookupD
          rw [hgok.deg_eq x hx]
        constructor
        · intro hxs
          have hd := (List.mem_filter.mp hxs).2
          have hv : lookupD (buildDepGraph names conns).2 x 0 = 0 :=
            of_decide_eq_true hd
          rw [hl] at hv
          have hn : predCnt (buildDepGraph names conns).1 names x = 0 := by
            exact_mod_cast hv
          have hz : predCnt (buildDepGraph names conns).1 [] x = 0 := by
            simp [predCnt]
          rw [hz, hn]
        · intro hc
          refine List.mem_filter.mpr ⟨hx, decide_eq_true ?_⟩
          rw [hl]
          have hz : predCnt (buildDepGraph names conns).1 [] x = 0 := by
            simp [predCnt]
          rw [hz] at hc
          rw [← hc]
          rfl
      · intro l₁ x l₂ h
        exact absurd h (by simp)
    obtain ⟨hnodup, hmemn, htp⟩ := kahnRun_ok (buildDepGraph names conns).1
      names hnd hgok.keys_none hgok.succ_nodup hgok.succ_mem
      ((names.filter
        (fun p => decide (lookupD (buildDepGraph names conns).2 p 0 = 0))).length +
        sumPos (buildDepGraph names conns).2)
      (buildDepGraph names conns).2
      (names.filter
        (fun p => decide (lookupD (buildDepGraph names conns).2 p 0 = 0)))
      [] (Nat.le_refl _) hinv
    have hperm : (kahnRun (buildDepGraph names conns).1
        (buildDepGraph names conns).2
        (names.filter
          (fun p => decide (lookupD (buildDepGraph names conns).2 p 0 = 0)))
        []).Perm names :=
      List.Subperm.perm_of_length_le
        (List.subperm_of_subset hnodup (fun x hx => hmemn x hx))
        (by omega)
    refine ⟨hlen, hperm, ?_, ?_⟩
    · have hdir : ∀ a b, hasEdge conns a b = true →
          (kahnRun (buildDepGraph names conns).1 (buildDepGraph names conns).2
            (names.filter
              (fun p => decide (lookupD (buildDepGraph names conns).2 p 0 = 0)))
            []).indexOf a <
          (kahnRun (buildDepGraph names conns).1 (buildDepGraph names conns).2
            (names.filter
              (fun p => decide (lookupD (buildDepGraph names conns).2 p 0 = 0)))
            []).indexOf b := by
        intro a b he
        have hbsucc : b ∈ lookupD (buildDepGraph names conns).1 a [] :=
          (buildDepGraph_mem names conns a b).mpr he
        have hbn : b ∈ names := hgok.succ_mem a b hbsucc
        have hbo : b ∈ kahnRun (buildDepGraph names conns).1
            (buildDepGraph names conns).2
            (names.filter
              (fun p => decide (lookupD (buildDepGraph names conns).2 p 0 = 0)))
            [] := hperm.mem_iff.mpr hbn
        obtain ⟨l₁, l₂, hsplit⟩ := List.append_of_mem hbo
        have hal : a ∈ l₁ := htp l₁ b l₂ hsplit a hbsucc
        rw [hsplit]
        rw [hsplit] at hnodup
        exact indexOf_lt_of_split l₁ b l₂ a hnodup hal
      intro a b htr
      induction htr with
      | single h => exact hdir _ _ h
      | tail _ h ihh => exact lt_trans ihh (hdir _ _ h)
    · have htake := kahnRun_take (buildDepGraph names conns).1
        hgok.succ_nodup
        ((names.filter
          (fun p => decide (lookupD (buildDepGraph names conns).2 p 0 = 0))).length +
          sumPos (buildDepGraph names conns).2)
        (buildDepGraph names conns).2
        (names.filter
          (fun p => decide (lookupD (buildDepGraph names conns).2 p 0 = 0)))
        [] [] (by simp)
      simp only [List.append_nil, List.length_nil, Nat.zero_add,
        List.nil_append] at htake
      rw [← seeds_eq names conns hnd hwf]
      exact htake

theorem claim_C3_execution_order_witness :
    (["A", "C", "B"] : List String).length = (["A", "B", "C"] : List String).length ∧
    (["A", "C", "B"] : List String).Perm ["A", "B", "C"] ∧
    (∀ a b, Relation.TransGen
        (fun u v => hasEdge [("A", [("o", [("B", "x")])]),
          ("C", [("o2", [("B", "y")])])] u v = true) a b →
      (["A", "C", "B"] : List String).indexOf a <
        (["A", "C", "B"] : List String).indexOf b) ∧
    (["A", "C", "B"] : List String).take
        ((["A", "B", "C"].filter (noProducer ["A", "B", "C"]
          [("A", [("o", [("B", "x")])]), ("C", [("o2", [("B", "y")])])])).length) =
      ["A", "B", "C"].filter (noProducer ["A", "B", "C"]
        [("A", [("o", [("B", "x")])]), ("C", [("o2", [("B", "y")])])]) :=
  claim_C3_execution_order ["A", "B", "C"]
    [("A", [("o", [("B", "x")])]), ("C", [("o2", [("B", "y")])])]
    ["A", "C", "B"] (by decide) (by decide) (by decide)

/-! ## C4 — runner failure isolation -/

/-- C4 counterexample: `stRun` is a successfully built two-plugin pipeline
`A.o → B.x` whose plugin `A` raises `"boom"` in `process()`.  One tick of
`run()` propagates the exception instead of logging it and continuing: the
tick aborts with the error, and `B` (which the claim says still executes)
never runs. -/
theorem claim_C4_counterexample :
    (Trenex.build_trnx stR3).2 = none ∧
    TRNXrunTick stRun = .error "boom" := by
  constructor
  · decide
  · decide

/-- C4 (amended): `TRNX.run` has no `try`/`except` around `process()` — the
first plugin exception in a tick propagates out of the loop, so the plugins
after it in the order do not execute in that tick (the result is the raw
error, independent of what follows the failing plugin). -/
theorem claim_C4_amended (heap : List (Nat × PluginInst))
    (ids₁ : List Nat) (pid : Nat) (ids₂ : List Nat) (p : PluginInst) (e : String)
    (h₁ : ∀ q ∈ ids₁, ∃ inst, heap.lookup q = some inst ∧
      inst.processResult = .ok ())
    (hp : heap.lookup pid = some p)
    (he : p.processResult = .error e) :
    runTick heap (ids₁ ++ pid :: ids₂) = .error e := by
  induction ids₁ with
  | nil =>
      simp only [List.nil_append, runTick, hp, he]
  | cons q rest ih =>
      obtain ⟨inst, hq, hok⟩ := h₁ q (by simp)
      have hrest : ∀ r ∈ rest, ∃ inst, heap.lookup r = some inst ∧
          inst.processResult = .ok () := fun r hr => h₁ r (by simp [hr])
      simp only [List.cons_append, runTick, hq, hok, List.append_eq, ih hrest]

theorem claim_C4_amended_witness :
    runTick stRun.heap ([] ++ 0 :: [1]) = .error "boom" :=
  claim_C4_amended stRun.heap [] 0 [1]
    { className := "A", required_inputs := [], provided_outputs := [("o", d64)],
      inputs := [], outputs := [("o", 2)], processResult := .error "boom" }
    "boom" (by intro q hq; simp at hq) (by decide) (by decide)

/-! ## C10 — unload_plugin can never succeed -/

/-- No reachable facade state gives its active TRNX object a `name`
attribute: `__init__` sets `_name`, and the only attributes ever assigned
afterwards are `plugins` and `_is_built` (both in `build_trnx`). -/
theorem reachable_no_name (st : TrenexState) (h : Reachable st) :
    ∀ g : GraphState, st.active = some g → g.trnx.lookup "name" = none := by
  induction h with
  | init =>
      intro g hg
      simp [Trenex.initState] at hg
  | start st' name hre ih =>
      intro g hg
      by_cases hmem : name ∈ st'.trnx_names
      · simp only [Trenex.start_new_trnx, if_pos hmem] at hg
        exact ih g hg
      · simp only [Trenex.start_new_trnx, if_neg hmem, Option.some.injEq] at hg
        rw [← hg]
        simp [TRNXinit, List.lookup]
  | load st' decl path hre ih =>
      intro g hg
      cases hact : st'.active with
      | none =>
          simp only [Trenex.load_plugin, hact] at hg
          exact Option.noConfusion hg
      | some g₀ =>
          cases hpl : g₀.trnx.lookup "_plugins" with
          | none =>
              simp only [Trenex.load_plugin, hact, hpl] at hg
              exact Option.some.inj hg ▸ ih g₀ hact
          | some attr =>
              cases attr with
              | str s =>
                  simp only [Trenex.load_plugin, hact, hpl] at hg
                  exact Option.some.inj hg ▸ ih g₀ hact
              | bool b =>
                  simp only [Trenex.load_plugin, hact, hpl] at hg
                  exact Option.some.inj hg ▸ ih g₀ hact
              | ids l =>
                  simp only [Trenex.load_plugin, hact, hpl,
                    Option.some.injEq] at hg
                  rw [← hg]
                  rw [lookup_setk_other _ _ _ _ (by decide)]
                  exact ih g₀ hact
  | unload st' n hre ih =>
      intro g hg
      cases hact : st'.active with
      | none =>
          simp only [Trenex.unload_plugin, hact] at hg
          exact Option.noConfusion hg
      | some g₀ =>
          have hname := ih g₀ hact
          simp only [Trenex.unload_plugin, hact, hname] at hg
          exact Option.some.inj hg ▸ ih g₀ hact
  | connect st' a o b i hre ih =>
      intro g hg
      cases hact : st'.active with
      | none =>
          simp only [Trenex.connect_plugin_output_to_input, hact] at hg
          exact Option.noConfusion hg
      | some g₀ =>
          by_cases h1 : (g₀.loaded_plugins.lookup a).isNone
          · simp only [Trenex.connect_plugin_output_to_input, hact,
              if_pos h1] at hg
            exact Option.some.inj hg ▸ ih g₀ hact
          · by_cases h2 : (g₀.loaded_plugins.lookup b).isNone
            · simp only [Trenex.connect_plugin_output_to_input, hact,
                if_neg h1, if_pos h2] at hg
              exact Option.some.inj hg ▸ ih g₀ hact
            · simp only [Trenex.connect_plugin_output_to_input, hact,
                if_neg h1, if_neg h2, Option.some.injEq] at hg
              rw [← hg]
              exact ih g₀ hact
  | build st' hre ih =>
      intro g hg
      cases hact : st'.active with
      | none =>
          simp only [Trenex.build_trnx, hact] at hg
          exact Option.noConfusion hg
      | some g₀ =>
          have hg₀ := ih g₀ hact
          rcases hmat : matConns g₀.loaded_plugins g₀.plugin_connections
              { heap := st'.heap, regions := st'.regions, nextId := st'.nextId }
            with ⟨m, err⟩
          cases err with
          | some e =>
              simp only [Trenex.build_trnx, hact, hmat,
                Option.some.injEq] at hg
              rw [← hg]
              exact hg₀
          | none =>
              cases hord : compute_execution_order
                  (g₀.loaded_plugins.map (fun x => x.1))
                  g₀.plugin_connections with
              | error e =>
                  simp only [Trenex.build_trnx, hact, hmat, hord,
                    Option.some.injEq] at hg
                  rw [← hg]
                  exact hg₀
              | ok order =>
                  cases hids : collectIds g₀.loaded_plugins order with
                  | error e =>
                      simp only [Trenex.build_trnx, hact, hmat, hord, hids,
                        Option.some.injEq] at hg
                      rw [← hg]
                      exact hg₀
                  | ok pids =>
                      cases hver : verifyAll m.heap pids with
                      | some e =>
                          simp only [Trenex.build_trnx, hact, hmat, hord,
                            hids, hver, Option.some.injEq] at hg
                          rw [← hg]
                          rw [lookup_setk_other _ _ _ _ (by decide)]
                          exact hg₀
                      | none =>
                          simp only [Trenex.build_trnx, hact, hmat, hord,
                            hids, hver, Option.some.injEq] at hg
                          rw [← hg]
                          rw [lookup_setk_other _ _ _ _ (by decide)]
                          rw [lookup_setk_other _ _ _ _ (by decide)]
                          exact hg₀

/-- C10: on every reachable facade state with an active graph,
`unload_plugin` reads `self._active_trnx.name`, an attribute the TRNX
object never has (`__init__` sets `_name`; builds add only `plugins` and
`_is_built`), so it raises `AttributeError` for every plugin name —
including loaded ones — and the state, in particular the loaded-plugin map
and the plugin list, is returned unchanged. -/
theorem claim_C10_unload_raises (st : TrenexState) (g : GraphState)
    (hre : Reachable st) (hact : st.active = some g) (plugin_name : String) :
    Trenex.unload_plugin st plugin_name =
      (st, some "AttributeError: 'TRNX' object has no attribute name") := by
  have hname := reachable_no_name st hre g hact
  simp only [Trenex.unload_plugin, hact, hname]

theorem claim_C10_unload_raises_witness :
    Trenex.unload_plugin stAB "A" =
      (stAB, some "AttributeError: 'TRNX' object has no attribute name") :=
  claim_C10_unload_raises stAB gAB
    (Reachable.load stA declB "b.plg"
      (Reachable.load st1 declA "a.plg"
        (Reachable.start Trenex.initState "g" Reachable.init)))
    (by decide) "A"

theorem claim_C9_amended_witness :
    (Trenex.load_plugin stAB declA "a2.plg" =
      ({ stAB with
          heap := setk stAB.heap 2 (PluginInst.ofDecl declA),
          nextId := 3,
          active := some { gAB with
            loaded_plugins := setk gAB.loaded_plugins "A" (2, "a2.plg"),
            trnx := setk gAB.trnx "_plugins" (Attr.ids [0, 1, 2]) } },
        none)) ∧
    (setk gAB.loaded_plugins "A" (2, "a2.plg")).length =
      gAB.loaded_plugins.length :=
  claim_C9_amended stAB gAB declA "a2.plg" 0 "a.plg" [0, 1]
    (by decide) (by decide) (by decide)

/-! ## C6 — shared-region binding after a successful build

The claim is false as stated: because `connect` never rejects fan-in (see
C2), a `(consumer, in_port)` destination can be named by two edges; the
build then materialises both producer groups and the second
`set_input_port` silently overwrites the first, so for the earlier edge the
producer's bound output region and the consumer's bound input region are
*different* objects.  In `stF` the build even *succeeds* (`B` only requires
`x`, and it is bound — twice).  The claim holds exactly for destinations
that are named by a single edge (`destCount = 1`), which also covers
fan-out: one output feeding several inputs shares the one region. -/

/-- C6 counterexample: in `stF` the edge set is `A.o → B.x, C.o2 → B.x`;
`build_trnx` succeeds, the edge `(A, o, B, x)` is declared, yet `A`'s bound
output region is region 3 while `B`'s bound input region is region 4 — not
the same region object. -/
theorem claim_C6_counterexample :
    stF.active = some gF ∧
    gF.loaded_plugins.lookup "A" = some (0, "a.plg") ∧
    gF.loaded_plugins.lookup "B" = some (1, "b.plg") ∧
    lookupD (lookupD gF.plugin_connections "A" []) "o" [] = [("B", "x")] ∧
    (Trenex.build_trnx stF).2 = none ∧
    outSlot (Trenex.build_trnx stF).1.heap 0 "o" = some (some 3) ∧
    inSlot (Trenex.build_trnx stF).1.heap 1 "x" = some (some 4) := by
  decide

/-- C6 (amended): after a successful build, for every declared edge
`(a, o, b, i)` whose destination `(b, i)` is named by exactly one edge
(`destCount = 1`, i.e. no fan-in into that input), the region bound as
`a`'s output `o` and the region bound as `b`'s input `i` are one and the
same region, and that region's recorded name is `a ++ "_" ++ o`.  The
dict-shaped hypotheses (key `Nodup`s, fresh region ids, distinct instance
ids) hold on every state the facade builds. -/
theorem claim_C6_amended (st : TrenexState) (g : GraphState)
    (a o b i pa pb : String) (pidA pidB : Nat)
    (ports : List (String × List (String × String)))
    (pairs : List (String × String))
    (hact : st.active = some g)
    (hfresh : ∀ kv ∈ st.regions, kv.1 < st.nextId)
    (hkeys : (g.plugin_connections.map (fun pc => pc.1)).Nodup)
    (hinj : (g.loaded_plugins.map (fun kv => kv.2.1)).Nodup)
    (hla : g.loaded_plugins.lookup a = some (pidA, pa))
    (hlb : g.loaded_plugins.lookup b = some (pidB, pb))
    (hports : g.plugin_connections.lookup a = some ports)
    (hpkeys : (ports.map (fun p => p.1)).Nodup)
    (hpairs : ports.lookup o = some pairs)
    (hmem : (b, i) ∈ pairs)
    (hdest : destCount g.plugin_connections b i = 1)
    (hsucc : (Trenex.build_trnx st).2 = none) :
    ∃ rid port,
      outSlot (Trenex.build_trnx st).1.heap pidA o = some (some rid) ∧
      inSlot (Trenex.build_trnx st).1.heap pidB i = some (some rid) ∧
      (Trenex.build_trnx st).1.regions.lookup rid = some port ∧
      port.name = a ++ "_" ++ o := by
  obtain ⟨hmsucc, hheap, hregs⟩ := build_trnx_success_inv st g hact hsucc
  rw [hheap, hregs]
  obtain ⟨c₁, c₂, hc, hnc₂⟩ :=
    lookup_split g.plugin_connections a ports hkeys hports
  obtain ⟨ps₁, ps₂, hp, hnp₂⟩ := lookup_split ports o pairs hpkeys hpairs
  obtain ⟨q₁, q₂, hq⟩ := List.append_of_mem hmem
  subst hq
  subst hp
  rw [hc] at hdest hmsucc ⊢
  rw [destCount_append, destCount_cons, portsDest_append, portsDest_cons,
      countP_middle _ q₁ q₂ (b, i) (by simp)] at hdest
  have hcq₂ : q₂.countP (fun pr => decide (pr = (b, i))) = 0 := by omega
  have hpd₂ : portsDest ps₂ b i = 0 := by omega
  have hdc₂ : destCount c₂ b i = 0 := by omega
  exact matConns_edge g.loaded_plugins a o b i pa pb pidA pidB c₁ c₂ ps₁ ps₂
    q₁ q₂ { heap := st.heap, regions := st.regions, nextId := st.nextId }
    _ rfl hla hlb hfresh
    (bindsIn_false_of_countP_zero _ hinj b i pidB pb hlb q₂ hcq₂)
    (portsBindIn_false_of_portsDest_zero _ hinj b i pidB pb hlb ps₂ hpd₂)
    (connsBindIn_false_of_destCount_zero _ hinj b i pidB pb hlb c₂ hdc₂)
    (portsSetsOut_false_of_not_mem ps₂ o hnp₂)
    (connsSetsOut_false_of_not_mem _ hinj a pidA pa hla o c₂ hnc₂)
    hmsucc

/-- C6 amended witness: the fan-out pipeline `A.o → B.x, A.o → B.y` of
`stG` builds successfully; for the edge `(A, o, B, x)` (destination named
once) the theorem yields the shared region, which is region 2 with name
`"A_o"` bound both as `A`'s output and as `B`'s input. -/
theorem claim_C6_amended_witness :
    destCount gG.plugin_connections "B" "x" = 1 ∧
    (Trenex.build_trnx stG).2 = none ∧
    (∃ rid port,
      outSlot (Trenex.build_trnx stG).1.heap 0 "o" = some (some rid) ∧
      inSlot (Trenex.build_trnx stG).1.heap 1 "x" = some (some rid) ∧
      (Trenex.build_trnx stG).1.regions.lookup rid = some port ∧
      port.name = "A" ++ "_" ++ "o") :=
  ⟨by decide, by decide,
    claim_C6_amended stG gG "A" "o" "B" "x" "a.plg" "b.plg" 0 1
      [("o", [("B", "x"), ("B", "y")])] [("B", "x"), ("B", "y")]
      (by decide) (by decide) (by decide) (by decide) (by decide) (by decide)
      (by decide) (by decide) (by decide) (by decide) (by decide) (by decide)⟩

end TRNX
